import Mathlib

/-!
Verification of the OpenViking memory-bridge subsystem (store client, outbox,
write bridge, retrieval planner, read pipeline, fs write-policy gate) against
its natural-language specification.

The definitions below are a shallow embedding of the TypeScript source:

* `src/memory/openviking/client.ts` — store client (`OpenVikingClient.request`),
  read pipeline (`OpenVikingMemoryManager.search`, `readFile`), planner
  (`resolveSearchDecision` and helpers), snippet trimming (`trimToMaxChars`).
* `src/memory/openviking/fs-relations.ts` — fs write-policy gate
  (`enforceOpenVikingFsWritePolicy`, `mvOpenVikingFs`).
* the outbox module (`OpenVikingOutbox`): `enqueue` / `flush`.
* the bridge module: `enqueueEvents`, `enqueueOpenVikingMessage`,
  `enqueueOpenVikingCommit`, `normalizeRole`, `normalizeEventContent`.

Modelling conventions:

* JavaScript strings are modelled by Lean `String`; `slice`/`split` style
  operations work on `String.data` (a `List Char`), so one JS UTF-16 code
  unit is identified with one Lean `Char`.
* JavaScript numbers that the source treats as floats (scores, ranks,
  priorities) are modelled by `ℚ`; counters and character budgets by `ℕ`
  (where the source guards against non-positive values, the guard is kept).
* Asynchronous HTTP calls are modelled by oracle functions passed as
  arguments (`String → Option String` for content reads, outcome functions
  for the outbox sender); a `none`/`false` result models a thrown transport
  error, exactly where the source catches it.
* Fallible code returns `Except String α`; the `.ok` payload of an
  operation that would issue an HTTP request is the request itself, so
  `.error` proves that no request was issued.
* Random `event_id` values (from `crypto.randomUUID()`) are not represented:
  no verified property depends on them.
-/

namespace OV

/-! ## Generic JS-string helpers -/

/-- JS `String#slice(0, n)` on our char-level model. -/
def jsTake (s : String) (n : Nat) : String := ⟨s.data.take n⟩

/-- JS `String#slice(n)` on our char-level model. -/
def jsDrop (s : String) (n : Nat) : String := ⟨s.data.drop n⟩

/-- JS `String#startsWith`. -/
def jsStartsWith (s pre : String) : Bool := pre.data.isPrefixOf s.data

/-- JS `String#includes` (substring test). -/
def jsIncludes (s sub : String) : Bool := decide (sub.data <:+: s.data)

/-- JS `String#trim` (whitespace at both ends removed), implemented over
the character list so that it reduces definitionally.  `Char.isWhitespace`
covers the ASCII whitespace the verified strings use. -/
def jsTrim (s : String) : String :=
  ⟨((s.data.dropWhile Char.isWhitespace).reverse.dropWhile Char.isWhitespace).reverse⟩

/-- JS `String#toLowerCase`, over the character list. -/
def jsToLower (s : String) : String := ⟨s.data.map Char.toLower⟩

/-- JS `String#includes(c)` for a single character. -/
def strContainsChar (s : String) (c : Char) : Bool := s.data.contains c

/-- JS `value.replace(/\/+$/, "")`: strip all trailing `/` characters
(`trimTrailingSlash` in `client.ts`, and the same regex in
`normalizePolicyUri` in `fs-relations.ts`). -/
def stripTrailingSlashes (s : String) : String :=
  ⟨(s.data.reverse.dropWhile (· = '/')).reverse⟩

/-! ## Session events (`OpenVikingSessionEvent`) -/

/-- Normalized message role; `normalizeRole` in the bridge module only ever
produces these two values. -/
inductive OVRole where
  | user
  | assistant
deriving DecidableEq, Repr

/-- A session event (`OpenVikingSessionEvent`).  `metadataSource` models the
only metadata key the verified claims inspect (`metadata.source` on commit
events); `event_id` (a random UUID) is not represented. -/
structure OVEvent where
  event_type : String
  role : Option OVRole := none
  content : Option String := none
  cause : Option String := none
  metadataSource : Option String := none
deriving DecidableEq, Repr

/-- Bridge `normalizeRole`: `role === "user" ? "user" : "assistant"`. -/
def normalizeRole (role : Option String) : OVRole :=
  if role = some "user" then .user else .assistant

/-- Bridge `normalizeEventContent`: trim, drop empties, cap at 16,000
characters with the literal `\n\n[truncated]` marker. -/
def normalizeEventContent (content : Option String) : String :=
  let trimmed := jsTrim (content.getD "")
  if trimmed = "" then ""
  else if 16000 < trimmed.length then jsTake trimmed 16000 ++ "\n\n[truncated]"
  else trimmed

/-! ## `readFile` path normalization and line slicing (`client.ts`) -/

/-- JS `trimmed.replace(/^\.?\//, "")`: strip one leading `./` or `/`. -/
def stripLeadingRel (s : String) : String :=
  if jsStartsWith s "./" then jsDrop s 2
  else if jsStartsWith s "/" then jsDrop s 1
  else s

/-- `normalizeUri` (`client.ts`): `viking://` uris pass through, absolute
paths are rooted under `viking://resource`, relative paths additionally lose
a leading `./` or `/`.  Empty (after trim) input throws `path required`. -/
def normalizeUri (input : String) : Except String String :=
  let trimmed := jsTrim input
  if trimmed = "" then .error "path required"
  else if jsStartsWith trimmed "viking://" then .ok trimmed
  else if jsStartsWith trimmed "/" then .ok ("viking://resource" ++ trimmed)
  else .ok ("viking://resource/" ++ stripLeadingRel trimmed)

/-- JS `text.split("\n")` at the `List Char` level: split into the (always
non-empty) list of `\n`-free chunks. -/
def splitNl : List Char → List (List Char)
  | [] => [[]]
  | c :: rest =>
    if c = '\n' then [] :: splitNl rest
    else
      match splitNl rest with
      | [] => [[c]]
      | l :: ls => (c :: l) :: ls

/-- JS `lines.join("\n")` at the `List Char` level. -/
def joinNl : List (List Char) → List Char
  | [] => []
  | [l] => l
  | l :: ls => l ++ '\n' :: joinNl ls

/-- The lines of a string, in the sense of JS `text.split("\n")`. -/
def jsLines (s : String) : List String := (splitNl s.data).map String.mk

/-- Result of `OpenVikingMemoryManager.readFile`. -/
structure ReadFileResult where
  text : String
  path : String
deriving DecidableEq, Repr

/-- `OpenVikingMemoryManager.readFile`.  `storedText` is the content the
store would return from `client.read(uri)` (an oracle input).  `fromLine`
and `lineCount` model the optional JS numbers `from` and `lines`; the JS
falsiness test `!params.from && !params.lines` treats both `undefined`
(`none`) and `0` (`some 0`) as absent. -/
def readFile (storedText : String) (relPath : String)
    (fromLine lineCount : Option Int) : Except String ReadFileResult := do
  let uri ← normalizeUri relPath
  if (fromLine = none ∨ fromLine = some 0) ∧ (lineCount = none ∨ lineCount = some 0) then
    return ⟨storedText, uri⟩
  let allLines := splitNl storedText.data
  let start : Int := max 1 (fromLine.getD 1)
  let count : Int := max 1 (lineCount.getD allLines.length)
  let slice := (allLines.drop (start - 1).toNat).take count.toNat
  return ⟨⟨joinNl slice⟩, uri⟩

/-! ## FS write-policy gate (`fs-relations.ts`) -/

/-- The `fsWrite` section of the resolved config.  A missing `fsWrite`
object in the source behaves exactly like `enabled = false` and empty rule
lists, which is how it is represented here. -/
structure FsWriteConfig where
  enabled : Bool := false
  allowUriPrefixes : List String := []
  denyUriPrefixes : List String := []
  protectedUris : List String := []
  allowRecursiveRm : Bool := false
deriving DecidableEq, Repr

/-- The mutating fs operations the gate vets. -/
inductive FsWriteOp where
  | mkdir
  | rm
  | mv
deriving DecidableEq, Repr

/-- `normalizePolicyUri`: trim, require the `viking://` scheme, strip
trailing slashes (keeping the bare root unchanged), falling back to the
root when stripping empties the string. -/
def normalizePolicyUri (value : String) (label : String) : Except String String :=
  let trimmed := jsTrim value
  if trimmed = "" then .error (label ++ " is required")
  else if ¬ jsStartsWith trimmed "viking://" then
    .error (label ++ " must start with \"viking://\"")
  else if trimmed = "viking://" then .ok trimmed
  else
    let normalized := stripTrailingSlashes trimmed
    .ok (if normalized = "" then "viking://" else normalized)

/-- `uriMatchesPrefix` in the source: path-boundary prefix match, with the
bare `viking://` rule matching everything. -/
def uriMatchesPrefixRule (uri : String) (rule : String) : Bool :=
  if rule = "viking://" then true
  else uri = rule || jsStartsWith uri (rule ++ "/")

/-- `normalizePolicyRuleList`: normalize each configured rule uri; the
first invalid rule aborts the whole operation (the source's `map` throws). -/
def normalizePolicyRuleList (values : List String) (label : String) :
    Except String (List String) :=
  values.mapM (normalizePolicyUri · label)

/-- `enforceOpenVikingFsWritePolicy`: run the policy checks in source
order and return the normalized uri for the store call. -/
def enforceOpenVikingFsWritePolicy (fsWrite : FsWriteConfig) (uriRaw : String)
    (operation : FsWriteOp) (recursive : Bool) : Except String String := do
  if fsWrite.enabled = false then
    throw "OpenViking fs write is disabled by policy. Set memory.openviking.fsWrite.enabled=true to enable."
  if operation = FsWriteOp.rm ∧ recursive = true ∧ fsWrite.allowRecursiveRm ≠ true then
    throw "OpenViking fs-rm --recursive is disabled by policy. Set memory.openviking.fsWrite.allowRecursiveRm=true to enable."
  let uri ← normalizePolicyUri uriRaw "uri"
  let allowUriPrefixes ← normalizePolicyRuleList fsWrite.allowUriPrefixes
    "memory.openviking.fsWrite.allowUriPrefixes"
  if allowUriPrefixes = [] then
    throw "OpenViking fs write policy requires memory.openviking.fsWrite.allowUriPrefixes to be configured."
  let denyUriPrefixes ← normalizePolicyRuleList fsWrite.denyUriPrefixes
    "memory.openviking.fsWrite.denyUriPrefixes"
  let protectedUris ← normalizePolicyRuleList fsWrite.protectedUris
    "memory.openviking.fsWrite.protectedUris"
  if protectedUris.contains uri then
    throw ("OpenViking fs write denied for protected uri: " ++ uri)
  if denyUriPrefixes.any (fun rule => uriMatchesPrefixRule uri rule) then
    throw ("OpenViking fs write denied by denyUriPrefixes: " ++ uri)
  if ¬ allowUriPrefixes.any (fun rule => uriMatchesPrefixRule uri rule) then
    throw ("OpenViking fs write denied (uri not in allowUriPrefixes): " ++ uri)
  return uri

/-- The HTTP request body `client.fsMv` would send; producing this value is
the model of issuing the request. -/
structure FsMvRequest where
  from_uri : String
  to_uri : String
deriving DecidableEq, Repr

/-- `mvOpenVikingFs`: vet source, vet destination, require them distinct,
and only then issue the store request (the `.ok` payload). -/
def mvOpenVikingFs (fsWrite : FsWriteConfig) (fromUri toUri : String) :
    Except String FsMvRequest := do
  let f ← enforceOpenVikingFsWritePolicy fsWrite fromUri FsWriteOp.mv false
  let t ← enforceOpenVikingFsWritePolicy fsWrite toUri FsWriteOp.mv false
  if f = t then throw "fromUri and toUri must be different"
  return ⟨f, t⟩

/-! ## Store client request envelope (`OpenVikingClient.request`) -/

/-- Response envelope `{status, result?, error?{message?}}`; `errorMessage`
models `error?.message`. -/
structure ApiEnvelope (α : Type) where
  status : String
  errorMessage : Option String := none
  result : Option α := none

/-- Outcome of `JSON.parse` on a non-empty body. -/
inductive JsonParseResult (α : Type) where
  | failed
  | parsed (envelope : ApiEnvelope α)

/-- An HTTP response as `request` observes it: `ok`/`status`/`statusText`
from `fetch`, the raw body `text`, and what `JSON.parse(text)` yields. -/
structure HttpResponse (α : Type) where
  ok : Bool
  status : Nat
  statusText : String
  text : String
  parse : JsonParseResult α

/-- `OpenVikingClient.request` after the response arrived: parse the body
when non-blank, reject non-2xx, reject a missing or non-`ok` envelope, and
return `result ?? {}` (the `emptyResult` argument models `{} as T`). -/
def request {α : Type} (emptyResult : α) (resp : HttpResponse α) : Except String α := do
  let payload : Option (ApiEnvelope α) ←
    if 0 < (jsTrim resp.text).length then
      match resp.parse with
      | .parsed e => pure (some e)
      | .failed => throw "openviking response is not valid JSON"
    else pure none
  if resp.ok = false then
    let detail := (payload.bind (·.errorMessage)).getD
      (if resp.text = "" then resp.statusText else resp.text)
    throw ("openviking request failed (" ++ toString resp.status ++ "): " ++ detail)
  match payload with
  | none => throw "openviking returned error: unknown error"
  | some e =>
    if e.status ≠ "ok" then
      throw ("openviking returned error: " ++ e.errorMessage.getD "unknown error")
    else
      return e.result.getD emptyResult

/-! ## Write bridge (`enqueueEvents`, commit triggers) -/

/-- Commit-trigger settings from the resolved config. -/
structure CommitTriggers where
  sessionEnd : Bool := true
  reset : Bool := true
  everyNMessages : Nat := 0
  everyNMinutes : Nat := 0
deriving DecidableEq, Repr

/-- Commit mode. -/
inductive CommitMode where
  | sync
  | async
deriving DecidableEq, Repr

/-- The slice of the resolved config the bridge enqueue path reads. -/
structure BridgeConfig where
  mode : CommitMode := .async
  triggers : CommitTriggers := {}
deriving DecidableEq, Repr

/-- Bridge-visible state for one linked session: the session-store fields
`lastSyncedSeq` / `lastCommitAt`, the ordered list of events handed to the
outbox (or `addEventsBatch` when the outbox is disabled), and the
`commitSession` calls made in sync mode.  Context resolution and session
linkage are assumed to have succeeded (the claims quantify over successful
enqueues). -/
structure BridgeState where
  lastSyncedSeq : Nat := 0
  lastCommitAt : Nat := 0
  queued : List OVEvent := []
  syncCommits : List (String × Option String) := []
deriving DecidableEq, Repr

/-- The commit event `enqueueOpenVikingCommit` builds in async mode. -/
def commitEvent (cause : String) (source : Option String) : OVEvent :=
  { event_type := "commit", cause := some cause, metadataSource := source }

/-- The part of `enqueueEvents` before trigger evaluation: queue the batch
and, when `bumpSeq` is set, bump `lastSyncedSeq` by `max 1 events.length`
(`bumpSessionSeq`), returning the new sequence number. -/
def enqueueEventsInner (st : BridgeState) (events : List OVEvent) (bumpSeq : Bool) :
    BridgeState × Option Nat :=
  let st1 := { st with queued := st.queued ++ events }
  if bumpSeq then
    let next := st.lastSyncedSeq + max 1 events.length
    ({ st1 with lastSyncedSeq := next }, some next)
  else (st1, none)

/-- `enqueueOpenVikingCommit`: gate `session_end`/`reset` on their
triggers, then either call `commitSession` directly (sync) or enqueue a
single commit event with `bumpSeq=false, skipCommitTriggers=true` (async);
in both cases `markCommitQueued` stamps `lastCommitAt`. -/
def enqueueOpenVikingCommit (cfg : BridgeConfig) (st : BridgeState)
    (cause : String) (source : Option String) (now : Nat) : BridgeState :=
  if cause = "session_end" ∧ cfg.triggers.sessionEnd = false then st
  else if cause = "reset" ∧ cfg.triggers.reset = false then st
  else
    match cfg.mode with
    | .sync =>
      { st with syncCommits := st.syncCommits ++ [(cause, source)], lastCommitAt := now }
    | .async =>
      let st1 := (enqueueEventsInner st [commitEvent cause source] false).1
      { st1 with lastCommitAt := now }

/-- JS truthiness of the `nextSeq` returned by `bumpSessionSeq`. -/
def seqTruthy (nextSeq : Option Nat) : Bool :=
  match nextSeq with
  | some n => n ≠ 0
  | none => false

/-- `enqueueEvents`: queue the batch, bump the sequence unless asked not
to, then evaluate the commit triggers — unless `skipCommitTriggers` is set
or the batch itself contains a commit event.  The message threshold fires
when `lastSyncedSeq` became a positive multiple of `everyNMessages`; else
the time threshold fires when `everyNMinutes` elapsed since a recorded
`lastCommitAt`. -/
def enqueueEvents (cfg : BridgeConfig) (st : BridgeState) (events : List OVEvent)
    (bumpSeq skipCommitTriggers : Bool) (now : Nat) : BridgeState :=
  if skipCommitTriggers then (enqueueEventsInner st events bumpSeq).1
  else if events.any (fun e => e.event_type = "commit") then
    (enqueueEventsInner st events bumpSeq).1
  else if 0 < cfg.triggers.everyNMessages ∧
      seqTruthy (enqueueEventsInner st events bumpSeq).2 = true ∧
      ((enqueueEventsInner st events bumpSeq).2).getD 0 % cfg.triggers.everyNMessages = 0 then
    enqueueOpenVikingCommit cfg (enqueueEventsInner st events bumpSeq).1
      "periodic" (some "message-threshold") now
  else if 0 < cfg.triggers.everyNMinutes ∧
      0 < (enqueueEventsInner st events bumpSeq).1.lastCommitAt ∧
      cfg.triggers.everyNMinutes * 60000
        ≤ now - (enqueueEventsInner st events bumpSeq).1.lastCommitAt then
    enqueueOpenVikingCommit cfg (enqueueEventsInner st events bumpSeq).1
      "periodic" (some "time-threshold") now
  else (enqueueEventsInner st events bumpSeq).1

/-- `enqueueOpenVikingMessage`: normalize the content, refuse to queue an
empty message (`false`), otherwise enqueue a single event whose role is
normalized and whose type defaults to `message`. -/
def enqueueOpenVikingMessage (cfg : BridgeConfig) (st : BridgeState)
    (role : Option String) (content : String) (eventType : Option String)
    (metadataSource : Option String) (now : Nat) : BridgeState × Bool :=
  let c := normalizeEventContent (some content)
  if c = "" then (st, false)
  else
    (enqueueEvents cfg st
      [{ event_type := eventType.getD "message", role := some (normalizeRole role),
         content := some c, metadataSource := metadataSource }]
      true false now, true)

/-- Iterated single-event enqueues through the bridge: step `j` enqueues
`[evs j]` at time `times j` with the default flags (`bumpSeq` on, triggers
evaluated), starting from the freshly linked state. -/
def runEnqueues (cfg : BridgeConfig) (evs : Nat → OVEvent) (times : Nat → Nat) :
    Nat → BridgeState
  | 0 => {}
  | j + 1 => enqueueEvents cfg (runEnqueues cfg evs times j) [evs j] true false (times j)

/-! ## Retrieval planner (`resolveSearchDecision` and helpers, `client.ts`) -/

/-- The three context kinds. -/
inductive ContextKind where
  | memory
  | resource
  | skill
deriving DecidableEq, Repr

/-- One entry of `query_plan.queries`.  Non-record entries are skipped by
the source and therefore not represented; a non-string `context_type` and a
non-numeric `priority` are both modelled by `none`. -/
structure PlanQuery where
  context_type : Option String := none
  priority : Option ℚ := none
  query : Option String := none
  target_directories : List String := []
deriving DecidableEq, Repr

/-- One entry of `query_results`.  `queryContextType` models
`row.query?.context_type`; `matchedContexts` is `some n` when
`row.matched_contexts` is an array of length `n` and `none` otherwise. -/
structure QueryResultRow where
  queryContextType : Option String := none
  context_type : Option String := none
  matchedContexts : Option Nat := none
deriving DecidableEq, Repr

/-- `normalizeContextKind`: trim, lowercase, and accept the six context
type spellings. -/
def normalizeContextKind (value : Option String) : Option ContextKind :=
  match value with
  | none => none
  | some s =>
    let n := jsToLower (jsTrim s)
    if n = "" then none
    else if n = "memory" ∨ n = "memories" then some .memory
    else if n = "resource" ∨ n = "resources" then some .resource
    else if n = "skill" ∨ n = "skills" then some .skill
    else none

/-- `normalizePriorityWeight`: a missing/non-numeric priority weighs 2;
otherwise the priority is clamped below by 1 and floored, and mapped
`≤1 → 5, 2 → 4, 3 → 3, 4 → 2, ≥5 → 1`. -/
def normalizePriorityWeight (priority : Option ℚ) : Nat :=
  match priority with
  | none => 2
  | some q =>
    let normalized : Int := max 1 ⌊q⌋
    if normalized ≤ 1 then 5
    else if normalized = 2 then 4
    else if normalized = 3 then 3
    else if normalized = 4 then 2
    else 1

/-- Planner signal accumulator (`OpenVikingPlannerSignals`). -/
structure PlannerSignals where
  source : String
  memory : Nat
  resource : Nat
  skill : Nat
deriving DecidableEq, Repr

/-- Add `w` to the accumulator entry for `k` (`signals[kind] += weight`). -/
def addSignal (s : PlannerSignals) (k : ContextKind) (w : Nat) : PlannerSignals :=
  match k with
  | .memory => { s with memory := s.memory + w }
  | .resource => { s with resource := s.resource + w }
  | .skill => { s with skill := s.skill + w }

/-- The contribution step for one `query_plan.queries` entry. -/
def planStep (acc : PlannerSignals × Bool) (row : PlanQuery) : PlannerSignals × Bool :=
  match normalizeContextKind row.context_type with
  | none => acc
  | some k => (addSignal acc.1 k (normalizePriorityWeight row.priority), true)

/-- The contribution step for one `query_results` entry; the weight is
`matched_contexts > 0 ? min(5, matched_contexts) : 1`. -/
def resultStep (acc : PlannerSignals × Bool) (row : QueryResultRow) :
    PlannerSignals × Bool :=
  match normalizeContextKind (row.queryContextType <|> row.context_type) with
  | none => acc
  | some k =>
    let matched := row.matchedContexts.getD 0
    let w := if 0 < matched then min 5 matched else 1
    (addSignal acc.1 k w, true)

/-- `resolvePlannerSignals`: fold the plan queries and the query results,
tracking which of the two sources contributed, and label the source
accordingly.  `none` models an absent or non-array field. -/
def resolvePlannerSignals (planQueries : Option (List PlanQuery))
    (queryResults : Option (List QueryResultRow)) : PlannerSignals :=
  let init : PlannerSignals := ⟨"none", 0, 0, 0⟩
  let p := (planQueries.getD []).foldl planStep (init, false)
  let r := (queryResults.getD []).foldl resultStep (p.1, false)
  let src :=
    if p.2 ∧ r.2 then "combined"
    else if p.2 then "query_plan"
    else if r.2 then "query_results"
    else "none"
  { r.1 with source := src }

/-- A kind/score pair as sorted by `resolvePlannerPriority`. -/
structure KindScore where
  kind : ContextKind
  score : Nat
deriving DecidableEq, Repr

/-- Insert into a descending-by-score list, before the first smaller-or-equal
entry — the stable descending sort JS `toSorted((a, b) => b.score - a.score)`
performs, one insertion at a time. -/
def orderedInsertDesc (x : KindScore) : List KindScore → List KindScore
  | [] => [x]
  | y :: ys => if y.score ≤ x.score then x :: y :: ys else y :: orderedInsertDesc x ys

/-- Stable descending sort by score. -/
def toSortedDesc : List KindScore → List KindScore
  | [] => []
  | x :: xs => orderedInsertDesc x (toSortedDesc xs)

/-- `resolvePlannerPriority`: the top-scored kind, when its score is
positive and strictly above the runner-up. -/
def resolvePlannerPriority (signals : PlannerSignals) : Option ContextKind :=
  let entries := toSortedDesc
    [⟨.memory, signals.memory⟩, ⟨.resource, signals.resource⟩, ⟨.skill, signals.skill⟩]
  match entries with
  | [] => none
  | top :: rest =>
    if top.score = 0 then none
    else
      match rest with
      | second :: _ => if second.score = top.score then none else some top.kind
      | [] => some top.kind

/-- `RESOURCE_SIGNALS` from the source. -/
def RESOURCE_SIGNALS : List String :=
  ["file", "files", "path", "paths", "readme", "markdown", "md", "resource",
   "resources", "code", "config", "api", "document", "docs"]

/-- `SKILL_SIGNALS` from the source. -/
def SKILL_SIGNALS : List String :=
  ["how", "plan", "steps", "workflow", "playbook", "guide", "guidance",
   "best practice", "template", "skill", "skills", "strategy", "process"]

/-- Characters kept by the tokenizer split `/[^a-z0-9_]+/`. -/
def isTokenChar (c : Char) : Bool :=
  ('a' ≤ c ∧ c ≤ 'z') ∨ ('0' ≤ c ∧ c ≤ '9') ∨ c = '_'

/-- Maximal runs of token characters (the non-empty pieces of the JS split
on `/[^a-z0-9_]+/`). -/
def tokenRuns : List Char → List (List Char)
  | [] => []
  | c :: rest =>
    if isTokenChar c then
      match tokenRuns rest with
      | [] => [[c]]
      | l :: ls =>
        match rest with
        | [] => [[c]]
        | c2 :: _ => if isTokenChar c2 then (c :: l) :: ls else [c] :: l :: ls
    else tokenRuns rest

/-- `buildSignalTokenSet`: the token set of the lowercased query. -/
def buildSignalTokenSet (query : String) : List String :=
  (tokenRuns (jsToLower query).data).map String.mk

/-- `countSignalHits`: multi-word signals hit via substring search on the
query, single-word signals via token-set membership. -/
def countSignalHits (query : String) (signals : List String) : Nat :=
  let tokenSet := buildSignalTokenSet query
  signals.foldl
    (fun count signal =>
      if strContainsChar signal ' ' then
        if jsIncludes query signal then count + 1 else count
      else if tokenSet.contains signal then count + 1 else count)
    0

/-- Configured search strategy. -/
inductive OVStrategy where
  | auto
  | memory_first
  | resource_first
  | skill_first
deriving DecidableEq, Repr

/-- Planner decision (`OpenVikingSearchDecision`). -/
structure SearchDecision where
  strategy : OVStrategy
  reason : String
  priority : ContextKind
  includeResources : Bool
  includeSkills : Bool
deriving DecidableEq, Repr

/-- `resolveSearchDecision`: fixed-priority strategies short-circuit;
otherwise the auto path weighs planner signals, then lexical signals, then
defaults to memory. -/
def resolveSearchDecision (strategy : OVStrategy)
    (includeResources includeSkills : Bool) (query : String)
    (sessionKey : Option String) (planQueries : Option (List PlanQuery))
    (queryResults : Option (List QueryResultRow)) : SearchDecision :=
  match strategy with
  | .memory_first =>
    ⟨strategy, "configured-memory-first", .memory, includeResources, includeSkills⟩
  | .resource_first =>
    ⟨strategy, "configured-resource-first", .resource, true, includeSkills⟩
  | .skill_first =>
    ⟨strategy, "configured-skill-first", .skill, includeResources, true⟩
  | .auto =>
    let normalized := jsToLower query
    let resourceHits := countSignalHits normalized RESOURCE_SIGNALS
    let skillHits := countSignalHits normalized SKILL_SIGNALS
    let plannerSignals := resolvePlannerSignals planQueries queryResults
    let plannerPriority := resolvePlannerPriority plannerSignals
    let hasSessionKey := match sessionKey with
      | none => false
      | some s => jsTrim s ≠ ""
    let includeResources :=
      includeResources || 0 < resourceHits || 0 < plannerSignals.resource
    let includeSkills := includeSkills || 0 < skillHits || 0 < plannerSignals.skill
    match plannerPriority with
    | some priority =>
      { strategy := .auto
        reason :=
          if plannerSignals.source = "query_plan" then
            if hasSessionKey then "auto-planner-plan-session" else "auto-planner-plan"
          else if plannerSignals.source = "query_results" then
            if hasSessionKey then "auto-planner-results-session" else "auto-planner-results"
          else
            if hasSessionKey then "auto-planner-combined-session" else "auto-planner-combined"
        priority := priority
        includeResources := includeResources
        includeSkills := includeSkills }
    | none =>
      if skillHits < resourceHits then
        { strategy := .auto
          reason := if hasSessionKey then "auto-resource-signals-session" else "auto-resource-signals"
          priority := .resource
          includeResources := includeResources, includeSkills := includeSkills }
      else if resourceHits < skillHits then
        { strategy := .auto
          reason := if hasSessionKey then "auto-skill-signals-session" else "auto-skill-signals"
          priority := .skill
          includeResources := includeResources, includeSkills := includeSkills }
      else if 0 < resourceHits ∧ 0 < skillHits then
        { strategy := .auto, reason := "auto-mixed-signals", priority := .resource
          includeResources := includeResources, includeSkills := includeSkills }
      else
        { strategy := .auto
          reason := if hasSessionKey then "auto-session-memory" else "auto-memory"
          priority := .memory
          includeResources := includeResources, includeSkills := includeSkills }

/-! ## Read pipeline (`OpenVikingMemoryManager.search`) -/

/-- A store-returned matched context. -/
structure MatchedContext where
  uri : String := ""
  abstract : Option String := none
  overview : Option String := none
  score : Option ℚ := none
  match_reason : Option String := none
deriving DecidableEq, Repr

/-- A search (or find) response body, as far as the pipeline reads it. -/
structure SearchResultOV where
  memories : List MatchedContext := []
  resources : List MatchedContext := []
  skills : List MatchedContext := []
  planQueries : Option (List PlanQuery) := none
  queryResults : Option (List QueryResultRow) := none
deriving DecidableEq, Repr

/-- Candidate origin. -/
inductive RecallOrigin where
  | direct
  | relation
deriving DecidableEq, Repr

/-- A ranking candidate (`OpenVikingSearchCandidate`). -/
structure SearchCandidate where
  kind : ContextKind
  context : MatchedContext
  score : ℚ
  rank : ℚ
  origin : RecallOrigin
  relationFrom : Option String := none
  relationDepth : Option Nat := none
deriving DecidableEq, Repr

/-- Requested read layer. -/
inductive OVReadLayer where
  | l0
  | l1
  | l2
  | progressive
deriving DecidableEq, Repr

/-- Resolved layer actually used for a snippet. -/
inductive OVLayerOut where
  | l0
  | l1
  | l2
deriving DecidableEq, Repr

/-- The search-related slice of the resolved config this pipeline reads.
Relation-expansion tuning knobs are not listed because the expansion
output enters the pipeline as an explicit argument (see
`searchPipeline`). -/
structure SearchConfig where
  limit : Nat := 10
  strategy : OVStrategy := .auto
  includeResources : Bool := false
  includeSkills : Bool := false
  readLayer : OVReadLayer := .progressive
  maxEntries : Nat := 6
  maxSnippetChars : Nat := 560
  maxInjectedChars : Nat := 3200
  relationExpansion : Bool := false
deriving DecidableEq, Repr

/-- Caller options of `search(query, opts)`. -/
structure SearchOptions where
  maxResults : Option ℚ := none
  minScore : Option ℚ := none
  sessionKey : Option String := none
deriving DecidableEq, Repr

/-- The `maxResults` the pipeline actually uses: `Math.floor(opts.maxResults)`
when a positive number was supplied, else the configured `search.limit`. -/
def effectiveMaxResults (optsMaxResults : Option ℚ) (configLimit : Nat) : Int :=
  match optsMaxResults with
  | some q => if 0 < q then ⌊q⌋ else (configLimit : Int)
  | none => (configLimit : Int)

/-- `contextRankBonus`: `+0.15` on the priority kind, `+0.05` on other
memory hits, `0` otherwise. -/
def contextRankBonus (kind : ContextKind) (decision : SearchDecision) : ℚ :=
  if kind = decision.priority then 15 / 100
  else if kind = ContextKind.memory then 5 / 100
  else 0

/-- `collectContextsFromSearchResult`: memories always, resources and
skills only when the decision includes them. -/
def collectContextsFromSearchResult (result : SearchResultOV)
    (decision : SearchDecision) : List (ContextKind × MatchedContext) :=
  result.memories.map (fun c => (ContextKind.memory, c))
    ++ (if decision.includeResources then
          result.resources.map (fun c => (ContextKind.resource, c)) else [])
    ++ (if decision.includeSkills then
          result.skills.map (fun c => (ContextKind.skill, c)) else [])

/-- `normalizeSnippetText`: trim, mapping absence to the empty string. -/
def normalizeSnippetText (value : Option String) : String :=
  match value with
  | none => ""
  | some s => jsTrim s

/-- `trimToMaxChars`: cap a snippet at `maxChars` characters, replacing the
tail with `...` when at least four characters are available. -/
def trimToMaxChars (value : String) (maxChars : Nat) : String :=
  if maxChars = 0 then ""
  else if value.length ≤ maxChars then value
  else if maxChars ≤ 3 then jsTake value maxChars
  else jsTake value (maxChars - 3) ++ "..."

/-- JS `a || b` on strings: `a` when non-empty, else `b`. -/
def orElseStr (a b : String) : String := if a = "" then b else a

/-- `resolveContextSnippet`: choose a content layer for a context.  The
oracles model `client.read` / `client.overview` / `client.abstract`; a
`none` result models a request failure, which the source catches and turns
into an empty string. -/
def resolveContextSnippet (readO overO absO : String → Option String)
    (ctx : MatchedContext) (requestedLayer : OVReadLayer)
    (maxSnippetChars : Nat) : String × OVLayerOut :=
  let uri := jsTrim ctx.uri
  let inlineL1 := normalizeSnippetText ctx.overview
  let inlineL0 :=
    orElseStr (normalizeSnippetText ctx.abstract) (normalizeSnippetText ctx.match_reason)
  let usefulMinChars := max 40 (maxSnippetChars / 6)
  let readL2 := if uri = "" then "" else normalizeSnippetText (readO uri)
  let readL1 :=
    if inlineL1 ≠ "" then inlineL1
    else if uri = "" then ""
    else normalizeSnippetText (overO uri)
  let readL0 :=
    if inlineL0 ≠ "" then inlineL0
    else if uri = "" then ""
    else normalizeSnippetText (absO uri)
  let finalize := fun (layer : OVLayerOut) (text : String) =>
    (trimToMaxChars text maxSnippetChars, layer)
  match requestedLayer with
  | .l2 =>
    if readL2 ≠ "" then finalize .l2 readL2
    else if readL1 ≠ "" then finalize .l1 readL1
    else finalize .l0 readL0
  | .l1 =>
    if readL1 ≠ "" then finalize .l1 readL1
    else if readL0 ≠ "" then finalize .l0 readL0
    else finalize .l2 readL2
  | .l0 =>
    if readL0 ≠ "" then finalize .l0 readL0
    else if readL1 ≠ "" then finalize .l1 readL1
    else finalize .l2 readL2
  | .progressive =>
    if readL1 ≠ "" ∧ usefulMinChars ≤ readL1.length then finalize .l1 readL1
    else if readL0 ≠ "" ∧ usefulMinChars ≤ readL0.length then finalize .l0 readL0
    else if readL2 ≠ "" then finalize .l2 readL2
    else if readL1 ≠ "" then finalize .l1 readL1
    else finalize .l0 readL0

/-- `decorateSnippetForRecall`: when relation expansion is enabled, prefix
relation hits with their provenance and direct hits with `[direct-hit]`. -/
def decorateSnippetForRecall (snippet : String) (candidate : SearchCandidate)
    (relationExpansionEnabled : Bool) : String :=
  if relationExpansionEnabled = false then snippet
  else if candidate.origin = RecallOrigin.relation then
    "[relation-expanded d" ++ toString (candidate.relationDepth.getD 1) ++ " from "
      ++ (candidate.relationFrom.getD "unknown") ++ "] " ++ snippet
  else "[direct-hit] " ++ snippet

/-- `resolveSourceFromUri`: session uris map to the `sessions` source. -/
def resolveSourceFromUri (uri : String) : String :=
  if jsIncludes (jsToLower uri) "viking://session/" then "sessions" else "memory"

/-- A returned result row (`MemorySearchResult`). -/
structure MemorySearchResult where
  path : String
  startLine : Nat := 1
  endLine : Nat := 1
  score : ℚ
  snippet : String
  source : String
deriving DecidableEq, Repr

/-- `contextToMemoryResult` with a snippet override. -/
def contextToMemoryResult (ctx : MatchedContext) (snippetOverride : String) :
    MemorySearchResult :=
  let uri := if jsTrim ctx.uri ≠ "" then ctx.uri else "viking://"
  { path := uri, score := ctx.score.getD 0, snippet := snippetOverride,
    source := resolveSourceFromUri uri }

/-- Phase E: direct candidates with `rank = score + bonus`. -/
def directCandidates (contexts : List (ContextKind × MatchedContext))
    (decision : SearchDecision) : List SearchCandidate :=
  contexts.map fun kc =>
    let score := kc.2.score.getD 0
    { kind := kc.1, context := kc.2, score := score,
      rank := score + contextRankBonus kc.1 decision, origin := .direct }

/-- Candidate order used by `filtered.sort`: descending rank, ties broken
by descending score. -/
def candBeforeOrEq (a b : SearchCandidate) : Bool :=
  decide (b.rank < a.rank ∨ (a.rank = b.rank ∧ b.score ≤ a.score))

/-- Stable insertion for the candidate sort. -/
def candInsertDesc (x : SearchCandidate) : List SearchCandidate → List SearchCandidate
  | [] => [x]
  | y :: ys => if candBeforeOrEq x y then x :: y :: ys else y :: candInsertDesc x ys

/-- The stable sort JS performs for `sort((a, b) => b.rank - a.rank || b.score - a.score)`. -/
def candSortDesc : List SearchCandidate → List SearchCandidate
  | [] => []
  | x :: xs => candInsertDesc x (candSortDesc xs)

/-- Phase H, the snippet-emission loop over the selected candidates:
resolve a layered snippet, skip empties, stop when the character budget is
exhausted, trim each emitted snippet to the remaining budget, and charge
the budget for what was emitted. -/
def emitRows (relationExpansion : Bool) (maxSnippetChars : Nat)
    (readLayer : OVReadLayer) (readO overO absO : String → Option String) :
    List SearchCandidate → Nat → List MemorySearchResult
  | [], _ => []
  | candidate :: rest, remainingChars =>
    let snippet :=
      resolveContextSnippet readO overO absO candidate.context readLayer maxSnippetChars
    if snippet.1 = "" then
      emitRows relationExpansion maxSnippetChars readLayer readO overO absO rest remainingChars
    else if remainingChars = 0 then []
    else
      let decoratedSnippet := trimToMaxChars
        (decorateSnippetForRecall snippet.1 candidate relationExpansion) maxSnippetChars
      let finalSnippet :=
        if remainingChars < decoratedSnippet.length then
          trimToMaxChars decoratedSnippet remainingChars
        else decoratedSnippet
      if finalSnippet = "" then []
      else
        contextToMemoryResult candidate.context finalSnippet
          :: emitRows relationExpansion maxSnippetChars readLayer readO overO absO rest
              (remainingChars - finalSnippet.length)

/-- `OpenVikingMemoryManager.search`, from the trimmed query to the emitted
rows.  `result` is the primary `client.search` response; `findResult` is
what the Phase-D `client.find` fallback would return (`none` models a
thrown fallback request).  `relationCandidates` is the output of the
Phase-F relation expansion (`expandRelationCandidates`), an HTTP-driven
BFS modelled here as an explicit input; when `relationExpansion` is off
the source discards it, which the conditional reproduces. -/
def searchPipeline (cfg : SearchConfig) (opts : SearchOptions) (query : String)
    (result : SearchResultOV) (findResult : Option SearchResultOV)
    (relationCandidates : List SearchCandidate)
    (readO overO absO : String → Option String) : List MemorySearchResult :=
  let trimmed := jsTrim query
  if trimmed = "" then []
  else
    let maxResults := effectiveMaxResults opts.maxResults cfg.limit
    let decision := resolveSearchDecision cfg.strategy cfg.includeResources
      cfg.includeSkills trimmed opts.sessionKey result.planQueries result.queryResults
    let contexts0 := collectContextsFromSearchResult result decision
    let contexts :=
      if contexts0 = [] then
        match findResult with
        | some fr =>
          let fallbackContexts := collectContextsFromSearchResult fr decision
          if fallbackContexts = [] then contexts0 else fallbackContexts
        | none => contexts0
      else contexts0
    let direct := directCandidates contexts decision
    let rankedRows := direct ++ (if cfg.relationExpansion then relationCandidates else [])
    let filtered :=
      match opts.minScore with
      | some minScore => rankedRows.filter (fun c => minScore ≤ c.score)
      | none => rankedRows
    let sorted := candSortDesc filtered
    let hardLimit := (max 1 (min maxResults (cfg.maxEntries : Int))).toNat
    let selected := sorted.take hardLimit
    emitRows cfg.relationExpansion cfg.maxSnippetChars cfg.readLayer readO overO absO
      selected (max 1 cfg.maxInjectedChars)

/-! ## Outbox (`OpenVikingOutbox`) -/

/-- Outbox tuning knobs, before the constructor clamps. -/
structure OutboxConfig where
  flushIntervalMs : Nat
  maxBatchSize : Nat
  retryBaseMs : Nat
  retryMaxMs : Nat
deriving DecidableEq, Repr

/-- The constructor clamps: flush interval ≥ 500 ms, batch ≥ 1, retry base
≥ 250 ms, retry cap ≥ retry base. -/
def mkOutboxConfig (flushIntervalMs maxBatchSize retryBaseMs retryMaxMs : Nat) :
    OutboxConfig :=
  { flushIntervalMs := max 500 flushIntervalMs
    maxBatchSize := max 1 maxBatchSize
    retryBaseMs := max 250 retryBaseMs
    retryMaxMs := max (max 250 retryBaseMs) retryMaxMs }

/-- An outbox item.  `id` stands for the random UUID; `attempts` is an
`Int` because a successful send marks the item with `attempts = -1` before
the filter removes it. -/
structure OutboxItem where
  id : Nat
  createdAt : Nat
  updatedAt : Nat
  attempts : Int
  nextAttemptAt : Nat
  sessionKey : String
  sessionId : String
  events : List OVEvent
deriving DecidableEq, Repr

/-- Outbox state: the persisted item queue plus, as the observation this
development reasons about, the ids of the items the sender delivered, in
delivery order. -/
structure OutboxState where
  items : List OutboxItem := []
  delivered : List Nat := []
deriving Repr

/-- `OpenVikingOutbox.enqueue`: ignore empty batches, otherwise append a
fresh item with `attempts = 0` and `nextAttemptAt = now`. -/
def outboxEnqueue (st : OutboxState) (id : Nat) (sessionKey sessionId : String)
    (events : List OVEvent) (now : Nat) : OutboxState :=
  if events = [] then st
  else { st with items := st.items ++
    [{ id := id, createdAt := now, updatedAt := now, attempts := 0,
       nextAttemptAt := now, sessionKey := sessionKey, sessionId := sessionId,
       events := events }] }

/-- Retry backoff: `min(retryMaxMs, retryBaseMs · 2^(attempts − 1))`. -/
def retryDelay (cfg : OutboxConfig) (attempts : Int) : Nat :=
  min cfg.retryMaxMs (cfg.retryBaseMs * 2 ^ (max 0 (attempts - 1)).toNat)

/-- The `flush` loop over the items, in file order.  `outcome id = true`
models a successful `sender` call for that item, `false` a thrown send.
Returns the updated item list and the ids delivered by this pass; the loop
stops at `maxBatchSize` successes and skips items still in backoff. -/
def flushLoop (cfg : OutboxConfig) (outcome : Nat → Bool) (now : Nat) :
    List OutboxItem → Nat → List OutboxItem × List Nat
  | [], _ => ([], [])
  | item :: rest, sent =>
    if cfg.maxBatchSize ≤ sent then (item :: rest, [])
    else if now < item.nextAttemptAt then
      let r := flushLoop cfg outcome now rest sent
      (item :: r.1, r.2)
    else if outcome item.id then
      let r := flushLoop cfg outcome now rest (sent + 1)
      ({ item with attempts := -1 } :: r.1, item.id :: r.2)
    else
      let attempts := item.attempts + 1
      let failed := { item with
        attempts := attempts
        updatedAt := now
        nextAttemptAt := now + retryDelay cfg attempts }
      let r := flushLoop cfg outcome now rest sent
      (failed :: r.1, r.2)

/-- `OpenVikingOutbox.flush` (one non-reentrant pass): run the loop, and
when anything was sent, drop the items marked delivered. -/
def outboxFlush (cfg : OutboxConfig) (st : OutboxState) (outcome : Nat → Bool)
    (now : Nat) : OutboxState :=
  let r := flushLoop cfg outcome now st.items 0
  let items := if 0 < r.2.length then r.1.filter (fun i => 0 ≤ i.attempts) else r.1
  { items := items, delivered := st.delivered ++ r.2 }

/-- One operation against a single outbox instance.  The single-flight
`flushing` guard makes concurrent flushes drop out immediately, so a run
of an outbox is a sequence of these operations. -/
inductive OutboxOp where
  | enq (id : Nat) (sessionKey sessionId : String) (events : List OVEvent) (now : Nat)
  | flush (outcome : Nat → Bool) (now : Nat)

/-- The wall-clock time of an operation. -/
def opTime : OutboxOp → Nat
  | .enq _ _ _ _ now => now
  | .flush _ now => now

/-- Apply one operation. -/
def outboxStep (cfg : OutboxConfig) (st : OutboxState) : OutboxOp → OutboxState
  | .enq id sessionKey sessionId events now => outboxEnqueue st id sessionKey sessionId events now
  | .flush outcome now => outboxFlush cfg st outcome now

/-- Run a trace of operations from a given state. -/
def outboxRunFrom (cfg : OutboxConfig) (st : OutboxState) : List OutboxOp → OutboxState
  | [] => st
  | op :: ops => outboxRunFrom cfg (outboxStep cfg st op) ops

/-- Run a trace of operations from the empty (fresh-file) state. -/
def outboxRun (cfg : OutboxConfig) (ops : List OutboxOp) : OutboxState :=
  outboxRunFrom cfg {} ops

/-- The ids of the items a trace enqueues, in enqueue order (empty batches
are ignored, as `enqueue` ignores them). -/
def enqueuedIds : List OutboxOp → List Nat
  | [] => []
  | .enq id _ _ events _ :: ops =>
    if events = [] then enqueuedIds ops else id :: enqueuedIds ops
  | .flush _ _ :: ops => enqueuedIds ops

/-- Operation times never decrease along the trace, starting from `t`
(`Date.now()` is monotone across the calls of one run). -/
def Chronological : Nat → List OutboxOp → Prop
  | _, [] => True
  | t, op :: ops => t ≤ opTime op ∧ Chronological (opTime op) ops

/-- Every send attempted anywhere in the trace succeeds. -/
def AllSucceed : List OutboxOp → Prop
  | [] => True
  | .enq _ _ _ _ _ :: ops => AllSucceed ops
  | .flush outcome _ :: ops => (∀ id, outcome id = true) ∧ AllSucceed ops

/-! ## Spec-level formulations for the auto-planner decision

The summations below restate the planner-signal computation as per-kind
sums, the way the specification words it; the theorems compare them with
the source's fold (`resolvePlannerSignals`). -/

/-- Signal score of one kind. -/
def sigOf (s : PlannerSignals) : ContextKind → Nat
  | .memory => s.memory
  | .resource => s.resource
  | .skill => s.skill

/-- Per-kind total of the plan-query weights (the source's weight table). -/
def planKindTotal (k : ContextKind) (planQueries : List PlanQuery) : Nat :=
  ((planQueries.filter (fun r => normalizeContextKind r.context_type = some k)).map
    (fun r => normalizePriorityWeight r.priority)).sum

/-- Per-kind total of the query-result weights
(`matched_contexts > 0 ? min(5, matched_contexts) : 1`). -/
def resultKindTotal (k : ContextKind) (queryResults : List QueryResultRow) : Nat :=
  ((queryResults.filter
      (fun r => normalizeContextKind (r.queryContextType <|> r.context_type) = some k)).map
    (fun r => if 0 < r.matchedContexts.getD 0 then min 5 (r.matchedContexts.getD 0) else 1)).sum

/-- Combined per-kind total the auto-planner decision is computed from. -/
def plannerKindTotal (k : ContextKind) (planQueries : List PlanQuery)
    (queryResults : List QueryResultRow) : Nat :=
  planKindTotal k planQueries + resultKindTotal k queryResults

/-- Whether any plan query contributes a planner signal. -/
def planContributes (planQueries : List PlanQuery) : Bool :=
  planQueries.any (fun r => (normalizeContextKind r.context_type).isSome)

/-- Whether any query result contributes a planner signal. -/
def resultsContribute (queryResults : List QueryResultRow) : Bool :=
  queryResults.any
    (fun r => (normalizeContextKind (r.queryContextType <|> r.context_type)).isSome)

/-- The auto-planner reason label determined by the contributing signal
sources and session presence (at least one source is assumed to have
contributed). -/
def plannerReasonLabel (usedPlan usedResults hasSession : Bool) : String :=
  (if usedPlan && usedResults then "auto-planner-combined"
   else if usedPlan then "auto-planner-plan"
   else "auto-planner-results")
  ++ (if hasSession then "-session" else "")

/-- The plan-query weight table exactly as the specification claim words
it — `priority 1→5, 2→4, 3→3, 4→2, else 1` — written independently for
comparison with the source's `normalizePriorityWeight`. -/
def specClaimWeight (priority : Option ℚ) : Nat :=
  match priority with
  | some q =>
    if q = 1 then 5
    else if q = 2 then 4
    else if q = 3 then 3
    else if q = 4 then 2
    else 1
  | none => 1

/-- The per-kind total as the specification claim words it
(`specClaimWeight` for plan queries, `clamp(matched_contexts, 1, 5)` for
query results). -/
def specClaimKindTotal (k : ContextKind) (planQueries : List PlanQuery)
    (queryResults : List QueryResultRow) : Nat :=
  ((planQueries.filter (fun r => normalizeContextKind r.context_type = some k)).map
    (fun r => specClaimWeight r.priority)).sum
  + ((queryResults.filter
      (fun r => normalizeContextKind (r.queryContextType <|> r.context_type) = some k)).map
    (fun r => max 1 (min 5 (r.matchedContexts.getD 0)))).sum

/-- The session-key presence test of the auto path (`sessionKey` present
and non-blank after trimming), as a Bool. -/
def hasSessionKeyB : Option String → Bool
  | none => false
  | some s => jsTrim s ≠ ""

/-! ## Helper lemmas -/

theorem string_eq_empty_iff_data (s : String) : s = "" ↔ s.data = [] := by
  constructor
  · intro h; simp [h]
  · intro h; cases s; simp_all

theorem string_append_ne_empty_right (a b : String) (hb : b ≠ "") : a ++ b ≠ "" := by
  intro h
  rw [string_eq_empty_iff_data, String.data_append, List.append_eq_nil] at h
  exact hb ((string_eq_empty_iff_data b).2 h.2)

theorem normalizeEventContent_eq_empty_iff (content : String) :
    normalizeEventContent (some content) = "" ↔ jsTrim content = "" := by
  unfold normalizeEventContent
  simp only [Option.getD]
  split
  · simp_all
  · split
    · rename_i hne _
      constructor
      · intro h
        exact absurd h (string_append_ne_empty_right _ _ (by decide))
      · intro h; exact absurd h hne
    · rename_i hne _
      exact ⟨fun h => absurd h hne, fun h => absurd h hne⟩

theorem enqueueOpenVikingCommit_queued (cfg : BridgeConfig) (st : BridgeState)
    (cause : String) (source : Option String) (now : Nat) :
    ∃ extra, (enqueueOpenVikingCommit cfg st cause source now).queued = st.queued ++ extra := by
  unfold enqueueOpenVikingCommit
  split
  · exact ⟨[], by simp⟩
  · split
    · exact ⟨[], by simp⟩
    · match h : cfg.mode with
      | .sync => exact ⟨[], by simp⟩
      | .async => exact ⟨[commitEvent cause source], by simp [enqueueEventsInner]⟩

theorem enqueueEvents_queued (cfg : BridgeConfig) (st : BridgeState)
    (events : List OVEvent) (bumpSeq skipCommitTriggers : Bool) (now : Nat) :
    ∃ extra,
      (enqueueEvents cfg st events bumpSeq skipCommitTriggers now).queued
        = st.queued ++ events ++ extra := by
  have hq1 : (enqueueEventsInner st events bumpSeq).1.queued = st.queued ++ events := by
    unfold enqueueEventsInner; split <;> simp
  unfold enqueueEvents
  split
  · exact ⟨[], by simp [hq1]⟩
  · split
    · exact ⟨[], by simp [hq1]⟩
    · split
      · obtain ⟨extra, hextra⟩ := enqueueOpenVikingCommit_queued cfg
          (enqueueEventsInner st events bumpSeq).1 "periodic" (some "message-threshold") now
        exact ⟨extra, by rw [hextra, hq1, List.append_assoc]⟩
      · split
        · obtain ⟨extra, hextra⟩ := enqueueOpenVikingCommit_queued cfg
            (enqueueEventsInner st events bumpSeq).1 "periodic" (some "time-threshold") now
          exact ⟨extra, by rw [hextra, hq1, List.append_assoc]⟩
        · exact ⟨[], by simp [hq1]⟩

/-! ## Claim theorems -/

/-- C5 counterexample: a 2xx response with an empty body does **not**
succeed with an empty result — `request` throws its protocol error
(`payload` stays `null`, so the `!payload || payload.status !== "ok"`
branch fires with detail `unknown error`). -/
theorem request_empty_body_2xx_throws :
    request (α := Nat) 0
      { ok := true, status := 200, statusText := "OK", text := "", parse := .failed }
      = .error "openviking returned error: unknown error" := by
  rfl

/-- C5 (amended): for a 2xx response, an empty (blank) body fails with
`openviking returned error: unknown error`; success requires a parsed
envelope with `status = "ok"`, and then a missing `result` yields the
empty result (`result ?? {}`). -/
theorem request_2xx_envelope_behavior {α : Type} (emptyResult : α)
    (resp : HttpResponse α) (hok : resp.ok = true) :
    (jsTrim resp.text = "" →
      request emptyResult resp = .error "openviking returned error: unknown error")
    ∧ (∀ e, jsTrim resp.text ≠ "" → resp.parse = .parsed e → e.status = "ok" →
        request emptyResult resp = .ok (e.result.getD emptyResult)) := by
  constructor
  · intro h
    unfold request
    rw [h]
    simp [hok, Bind.bind, Except.bind, Pure.pure, Except.pure]
    rfl
  · intro e hne hparse hstatus
    unfold request
    have hlen : 0 < (jsTrim resp.text).length := by
      cases hl : (jsTrim resp.text).length with
      | zero =>
        exact absurd ((string_eq_empty_iff_data _).2 (List.length_eq_zero.1 hl)) hne
      | succ n => omega
    rw [hparse]
    simp [hlen, hok, hstatus, Bind.bind, Except.bind, Pure.pure, Except.pure]

/-- C5 witness: a concrete 2xx response whose body is the ok-envelope with
no result succeeds with the empty result. -/
theorem request_2xx_envelope_behavior_witness :
    request (α := Nat) 0
      { ok := true, status := 200, statusText := "OK", text := "\x7b\"status\":\"ok\"\x7d",
        parse := .parsed { status := "ok" } }
      = .ok 0 :=
  (request_2xx_envelope_behavior (α := Nat) 0
      { ok := true, status := 200, statusText := "OK", text := "\x7b\"status\":\"ok\"\x7d",
        parse := .parsed { status := "ok" } } rfl).2
    { status := "ok" } (by decide) rfl rfl

/-- C6: `enqueueOpenVikingMessage` trims the content first; an empty trim
returns "not queued" (`false`) and enqueues nothing, while content longer
than 16,000 characters is queued with the first 16,000 characters followed
by the literal `\n\n[truncated]` marker — and the call still reports
success, not an error. -/
theorem enqueue_message_trim_and_truncate (cfg : BridgeConfig) (st : BridgeState)
    (role : Option String) (content : String) (eventType : Option String)
    (metadataSource : Option String) (now : Nat) :
    (jsTrim content = "" →
      enqueueOpenVikingMessage cfg st role content eventType metadataSource now = (st, false))
    ∧ (16000 < (jsTrim content).length →
      (enqueueOpenVikingMessage cfg st role content eventType metadataSource now).2 = true
      ∧ ∃ rest,
        (enqueueOpenVikingMessage cfg st role content eventType metadataSource now).1.queued
          = st.queued ++
            ({ event_type := eventType.getD "message", role := some (normalizeRole role),
               content := some (jsTake (jsTrim content) 16000 ++ "\n\n[truncated]"),
               metadataSource := metadataSource } : OVEvent) :: rest) := by
  constructor
  · intro h
    have hc : normalizeEventContent (some content) = "" :=
      (normalizeEventContent_eq_empty_iff content).2 h
    unfold enqueueOpenVikingMessage
    simp [hc]
  · intro h
    have htrim : jsTrim content ≠ "" := by
      intro h0
      rw [h0] at h
      exact absurd h (by decide)
    have hval : normalizeEventContent (some content)
        = jsTake (jsTrim content) 16000 ++ "\n\n[truncated]" := by
      unfold normalizeEventContent
      simp only [Option.getD]
      rw [if_neg htrim, if_pos h]
    have hne : jsTake (jsTrim content) 16000 ++ "\n\n[truncated]" ≠ "" :=
      string_append_ne_empty_right _ _ (by decide)
    unfold enqueueOpenVikingMessage
    rw [hval, if_neg hne]
    refine ⟨rfl, ?_⟩
    obtain ⟨extra, hextra⟩ := enqueueEvents_queued cfg st
      [{ event_type := eventType.getD "message", role := some (normalizeRole role),
         content := some (jsTake (jsTrim content) 16000 ++ "\n\n[truncated]"),
         metadataSource := metadataSource }] true false now
    exact ⟨extra, by rw [hextra, List.append_assoc]; rfl⟩

/-- Helper: `dropWhile` is the identity when no element satisfies the
predicate. -/
theorem dropWhile_eq_self_of_forall (p : α → Bool) (l : List α)
    (h : ∀ x ∈ l, p x = false) : l.dropWhile p = l := by
  cases l with
  | nil => rfl
  | cons a as =>
    rw [List.dropWhile_cons, h a (by simp)]
    simp

/-- Helper: `jsTrim` leaves a whitespace-free string unchanged. -/
theorem jsTrim_eq_self (s : String)
    (h : ∀ x ∈ s.data, Char.isWhitespace x = false) : jsTrim s = s := by
  unfold jsTrim
  rw [dropWhile_eq_self_of_forall _ _ h,
    dropWhile_eq_self_of_forall _ _ (by intro x hx; exact h x (by simpa using hx)),
    List.reverse_reverse]

/-- C6 witness: an all-blank content is not queued, and a 16,001-character
content is queued truncated with the literal marker. -/
theorem enqueue_message_trim_and_truncate_witness :
    (enqueueOpenVikingMessage {} {} (some "user") "  " none none 0 = ({}, false))
    ∧ ((enqueueOpenVikingMessage {} {} (some "user")
          ⟨List.replicate 16001 'a'⟩ none none 0).2 = true
      ∧ ∃ rest,
        (enqueueOpenVikingMessage {} {} (some "user")
            ⟨List.replicate 16001 'a'⟩ none none 0).1.queued
          = ({} : BridgeState).queued ++
            ({ event_type := (none : Option String).getD "message",
               role := some (normalizeRole (some "user")),
               content := some (jsTake (jsTrim ⟨List.replicate 16001 'a'⟩) 16000 ++ "\n\n[truncated]"),
               metadataSource := none } : OVEvent) :: rest) :=
  ⟨(enqueue_message_trim_and_truncate {} {} (some "user") "  " none none 0).1 (by decide),
   (enqueue_message_trim_and_truncate {} {} (some "user")
      ⟨List.replicate 16001 'a'⟩ none none 0).2 (by
        show 16000 < (jsTrim ⟨List.replicate 16001 'a'⟩).length
        rw [jsTrim_eq_self ⟨List.replicate 16001 'a'⟩ (by
          intro x hx
          rw [List.eq_of_mem_replicate hx]
          decide)]
        show 16000 < (List.replicate 16001 'a').length
        rw [List.length_replicate]
        omega)⟩

/-- C10: every message event queued through `enqueueOpenVikingMessage`
carries role `user` or `assistant`; any supplied role other than exactly
`"user"` is coerced to `assistant`, and the call still succeeds (no error
for an invalid role). -/
theorem message_role_coerced_to_user_or_assistant (cfg : BridgeConfig) (st : BridgeState)
    (role : Option String) (content : String) (eventType : Option String)
    (metadataSource : Option String) (now : Nat) (h : jsTrim content ≠ "") :
    (enqueueOpenVikingMessage cfg st role content eventType metadataSource now).2 = true
    ∧ (∃ rest,
        (enqueueOpenVikingMessage cfg st role content eventType metadataSource now).1.queued
          = st.queued ++
            ({ event_type := eventType.getD "message", role := some (normalizeRole role),
               content := some (normalizeEventContent (some content)),
               metadataSource := metadataSource } : OVEvent) :: rest)
    ∧ (normalizeRole role = OVRole.user ∨ normalizeRole role = OVRole.assistant)
    ∧ (role ≠ some "user" → normalizeRole role = OVRole.assistant) := by
  have hne : normalizeEventContent (some content) ≠ "" := by
    intro h0
    exact h ((normalizeEventContent_eq_empty_iff content).1 h0)
  refine ⟨?_, ?_, ?_, ?_⟩
  · unfold enqueueOpenVikingMessage
    rw [if_neg hne]
  · unfold enqueueOpenVikingMessage
    rw [if_neg hne]
    obtain ⟨extra, hextra⟩ := enqueueEvents_queued cfg st
      [{ event_type := eventType.getD "message", role := some (normalizeRole role),
         content := some (normalizeEventContent (some content)),
         metadataSource := metadataSource }] true false now
    exact ⟨extra, by rw [hextra, List.append_assoc]; rfl⟩
  · unfold normalizeRole
    split
    · exact Or.inl rfl
    · exact Or.inr rfl
  · intro hrole
    unfold normalizeRole
    rw [if_neg hrole]

/-- C10 witness: a nonsense role string is queued as `assistant` without
error. -/
theorem message_role_coerced_to_user_or_assistant_witness :
    (enqueueOpenVikingMessage {} {} (some "weird") "hi" none none 0).2 = true
    ∧ (∃ rest,
        (enqueueOpenVikingMessage {} {} (some "weird") "hi" none none 0).1.queued
          = ({} : BridgeState).queued ++
            ({ event_type := (none : Option String).getD "message",
               role := some (normalizeRole (some "weird")),
               content := some (normalizeEventContent (some "hi")),
               metadataSource := none } : OVEvent) :: rest)
    ∧ (normalizeRole (some "weird") = OVRole.user
        ∨ normalizeRole (some "weird") = OVRole.assistant)
    ∧ (some "weird" ≠ some "user" → normalizeRole (some "weird") = OVRole.assistant) :=
  message_role_coerced_to_user_or_assistant {} {} (some "weird") "hi" none none 0 (by decide)

/-- Helper: a successful policy enforcement returns exactly the normalized
uri. -/
theorem enforce_ok_normalize (fsWrite : FsWriteConfig) (uriRaw : String)
    (op : FsWriteOp) (recursive : Bool) (v : String)
    (h : enforceOpenVikingFsWritePolicy fsWrite uriRaw op recursive = .ok v) :
    normalizePolicyUri uriRaw "uri" = .ok v := by
  unfold enforceOpenVikingFsWritePolicy at h
  simp only [Bind.bind, Except.bind, Pure.pure, Except.pure] at h
  repeat' split at h
  all_goals simp_all

/-- C7: when source and destination of `fsMv` normalise (trim plus
trailing-slash stripping) to the same uri, the operation fails before any
HTTP request is issued — the `.ok` payload modelling the request is never
produced.  Both uris go through the policy gate first: a gate failure also
aborts before HTTP, otherwise the explicit distinctness check fires. -/
theorem fsMv_same_normalized_uri_fails_before_http (fsWrite : FsWriteConfig)
    (fromUri toUri u : String)
    (hf : normalizePolicyUri fromUri "uri" = .ok u)
    (ht : normalizePolicyUri toUri "uri" = .ok u) :
    ∃ e, mvOpenVikingFs fsWrite fromUri toUri = .error e := by
  unfold mvOpenVikingFs
  simp only [Bind.bind, Except.bind]
  cases hef : enforceOpenVikingFsWritePolicy fsWrite fromUri FsWriteOp.mv false with
  | error e => exact ⟨e, rfl⟩
  | ok f =>
    cases het : enforceOpenVikingFsWritePolicy fsWrite toUri FsWriteOp.mv false with
    | error e => exact ⟨e, rfl⟩
    | ok t =>
      have h1 := enforce_ok_normalize fsWrite fromUri FsWriteOp.mv false f hef
      have h2 := enforce_ok_normalize fsWrite toUri FsWriteOp.mv false t het
      rw [hf] at h1
      rw [ht] at h2
      injection h1 with h1
      injection h2 with h2
      subst h1
      subst h2
      exact ⟨"fromUri and toUri must be different", by simp⟩

/-- C7 witness: `viking://resource/docs/a/` and `viking://resource/docs/a`
normalise identically and the move is refused before any store call. -/
theorem fsMv_same_normalized_uri_fails_before_http_witness :
    ∃ e, mvOpenVikingFs
      { enabled := true, allowUriPrefixes := ["viking://resource/docs"] }
      "viking://resource/docs/a/" "viking://resource/docs/a" = .error e :=
  fsMv_same_normalized_uri_fails_before_http
    { enabled := true, allowUriPrefixes := ["viking://resource/docs"] }
    "viking://resource/docs/a/" "viking://resource/docs/a" "viking://resource/docs/a"
    rfl rfl

/-- Helper: a split never produces an empty chunk list. -/
theorem splitNl_ne_nil (cs : List Char) : splitNl cs ≠ [] := by
  induction cs with
  | nil => simp [splitNl]
  | cons c rest ih =>
    unfold splitNl
    split
    · simp
    · split
      · simp
      · simp

/-- Helper: one-step unfolding equation for `splitNl` on a cons. -/
theorem splitNl_cons_eq (c : Char) (rest : List Char) :
    splitNl (c :: rest)
      = if c = '\n' then [] :: splitNl rest
        else match splitNl rest with
          | [] => [[c]]
          | l :: ls => (c :: l) :: ls := rfl

/-- Helper: unfolding equation for a newline head. -/
theorem splitNl_cons_nl (rest : List Char) :
    splitNl ('\n' :: rest) = [] :: splitNl rest := by
  rw [splitNl_cons_eq, if_pos rfl]

/-- Helper: unfolding equation for a non-newline head. -/
theorem splitNl_cons_ne (c : Char) (rest : List Char) (hc : c ≠ '\n')
    (l0 : List Char) (ls : List (List Char)) (hsp : splitNl rest = l0 :: ls) :
    splitNl (c :: rest) = (c :: l0) :: ls := by
  rw [splitNl_cons_eq, if_neg hc, hsp]

/-- Helper: chunks produced by the split contain no newline. -/
theorem splitNl_no_newline (cs : List Char) : ∀ l ∈ splitNl cs, '\n' ∉ l := by
  induction cs with
  | nil =>
    intro l hl
    simp [splitNl] at hl
    simp [hl]
  | cons c rest ih =>
    intro l hl
    by_cases hc : c = '\n'
    · subst hc
      rw [splitNl_cons_nl] at hl
      rcases List.mem_cons.1 hl with hl | hl
      · simp [hl]
      · exact ih l hl
    · rcases hsp : splitNl rest with _ | ⟨l0, ls⟩
      · exact absurd hsp (splitNl_ne_nil rest)
      · rw [splitNl_cons_ne c rest hc l0 ls hsp] at hl
        rcases List.mem_cons.1 hl with hl | hl
        · subst hl
          intro hmem
          rcases List.mem_cons.1 hmem with hm | hm
          · exact hc hm.symm
          · exact ih l0 (by rw [hsp]; exact List.mem_cons_self _ _) hm
        · exact ih l (by rw [hsp]; exact List.mem_cons_of_mem _ hl)

/-- Helper: a newline-free list splits into a single chunk. -/
theorem splitNl_of_no_newline (l : List Char) (h : '\n' ∉ l) : splitNl l = [l] := by
  induction l with
  | nil => rfl
  | cons c rest ih =>
    have hc : c ≠ '\n' := by
      intro h0
      exact h (by simp [h0])
    exact splitNl_cons_ne c rest hc rest []
      (ih (by intro h0; exact h (by simp [h0])))

/-- Helper: splitting `l ++ '\n' :: rest` peels off the newline-free `l`. -/
theorem splitNl_append_newline (l rest : List Char) (h : '\n' ∉ l) :
    splitNl (l ++ '\n' :: rest) = l :: splitNl rest := by
  induction l with
  | nil =>
    rw [List.nil_append, splitNl_cons_nl]
  | cons c t ih =>
    have hc : c ≠ '\n' := by
      intro h0
      exact h (by simp [h0])
    have iht := ih (by intro h0; exact h (by simp [h0]))
    rw [List.cons_append, splitNl_cons_ne c _ hc t (splitNl rest) iht]

/-- Helper: `splitNl` is a left inverse of `joinNl` on non-empty lists of
newline-free chunks. -/
theorem splitNl_joinNl (chunks : List (List Char)) (hne : chunks ≠ [])
    (h : ∀ l ∈ chunks, '\n' ∉ l) : splitNl (joinNl chunks) = chunks := by
  induction chunks with
  | nil => exact absurd rfl hne
  | cons l ls ih =>
    cases ls with
    | nil =>
      show splitNl (joinNl [l]) = [l]
      unfold joinNl
      exact splitNl_of_no_newline l (h l (by simp))
    | cons l2 ls2 =>
      show splitNl (l ++ '\n' :: joinNl (l2 :: ls2)) = l :: l2 :: ls2
      rw [splitNl_append_newline l _ (h l (by simp)),
        ih (by simp) (by intro x hx; exact h x (by simp [hx]))]

/-- Helper: a character prefix test fails when the heads differ. -/
theorem isPrefixOf_cons_of_ne (a b : Char) (as bs : List Char) (h : a ≠ b) :
    (a :: as).isPrefixOf (b :: bs) = false := by
  simp [List.isPrefixOf, h]

/-- C9: `readFile` path round-trip and line slicing — a `viking://` uri is
returned unchanged, a bare absolute path is rooted under
`viking://resource`, and a `from ≥ 1, lines ≥ 1` request against content
with at least `from + lines − 1` lines returns exactly `lines` lines
starting at line `from` (1-indexed). -/
theorem readFile_roundtrip_and_slice :
    (∀ storedText relPath fromLine lineCount, jsTrim relPath = relPath →
      jsStartsWith relPath "viking://" = true →
      (readFile storedText relPath fromLine lineCount).map ReadFileResult.path
        = .ok relPath)
    ∧ (∀ storedText relPath fromLine lineCount, jsTrim relPath = relPath →
      jsStartsWith relPath "/" = true →
      (readFile storedText relPath fromLine lineCount).map ReadFileResult.path
        = .ok ("viking://resource" ++ relPath))
    ∧ (∀ storedText relPath (f n : Nat), jsTrim relPath ≠ "" → 1 ≤ f → 1 ≤ n →
      f + n - 1 ≤ (jsLines storedText).length →
      ∃ res, readFile storedText relPath (some (f : Int)) (some (n : Int)) = .ok res
        ∧ jsLines res.text = ((jsLines storedText).drop (f - 1)).take n
        ∧ (jsLines res.text).length = n) := by
  refine ⟨?_, ?_, ?_⟩
  · intro storedText relPath fromLine lineCount htrim hstart
    have hne : relPath ≠ "" := by
      intro h0
      rw [h0] at hstart
      exact absurd hstart (by decide)
    have hn : normalizeUri relPath = .ok relPath := by
      unfold normalizeUri
      rw [htrim, if_neg hne, if_pos hstart]
    unfold readFile
    rw [hn]
    simp only [Bind.bind, Except.bind, Pure.pure, Except.pure]
    split <;> rfl
  · intro storedText relPath fromLine lineCount htrim hstart
    have hne : relPath ≠ "" := by
      intro h0
      rw [h0] at hstart
      exact absurd hstart (by decide)
    have hnv : jsStartsWith relPath "viking://" = false := by
      unfold jsStartsWith at hstart ⊢
      cases hd : relPath.data with
      | nil => rw [hd] at hstart; exact absurd hstart (by decide)
      | cons c t =>
        rw [hd] at hstart
        have hc : c = '/' := by
          have h1 : (('/' : Char) == c) = true := by
            have h2 : (['/'] : List Char).isPrefixOf (c :: t) = true := hstart
            simpa [List.isPrefixOf] using h2
          exact (beq_iff_eq.1 h1).symm
        subst hc
        exact isPrefixOf_cons_of_ne 'v' '/' _ t (by decide)
    have hn : normalizeUri relPath = .ok ("viking://resource" ++ relPath) := by
      unfold normalizeUri
      rw [htrim, if_neg hne, hnv]
      simp [hstart]
    unfold readFile
    rw [hn]
    simp only [Bind.bind, Except.bind, Pure.pure, Except.pure]
    split <;> rfl
  · intro storedText relPath f n htrim hf hcnt hlen
    have hnu : ∃ uri, normalizeUri relPath = .ok uri := by
      unfold normalizeUri
      rw [if_neg htrim]
      split
      · exact ⟨_, rfl⟩
      · split
        · exact ⟨_, rfl⟩
        · exact ⟨_, rfl⟩
    obtain ⟨uri, huri⟩ := hnu
    have hsplitlen : (splitNl storedText.data).length = (jsLines storedText).length := by
      unfold jsLines
      rw [List.length_map]
    have hidx : (max 1 ((some ((f : Int))).getD 1) - 1).toNat = f - 1 := by
      simp only [Option.getD]
      omega
    have hcount :
        (max 1 ((some ((n : Int))).getD
          ((splitNl storedText.data).length : Int))).toNat = n := by
      simp only [Option.getD]
      omega
    have hchunks_ne :
        ((splitNl storedText.data).drop (f - 1)).take n ≠ [] := by
      intro h0
      have hlen0 := congrArg List.length h0
      rw [List.length_take, List.length_drop, hsplitlen] at hlen0
      simp only [List.length_nil] at hlen0
      omega
    have hnl : ∀ l ∈ ((splitNl storedText.data).drop (f - 1)).take n, '\n' ∉ l :=
      fun l hl => splitNl_no_newline storedText.data l
        (List.mem_of_mem_drop (List.mem_of_mem_take hl))
    have hsl : splitNl (joinNl (((splitNl storedText.data).drop (f - 1)).take n))
        = ((splitNl storedText.data).drop (f - 1)).take n :=
      splitNl_joinNl _ hchunks_ne hnl
    unfold readFile
    rw [huri]
    simp only [Bind.bind, Except.bind, Pure.pure, Except.pure]
    rw [if_neg (by
      rintro ⟨hc, -⟩
      rcases hc with hc | hc
      · exact Option.noConfusion hc
      · have h0 : (f : Int) = 0 := by injection hc
        omega)]
    rw [hidx, hcount]
    refine ⟨_, rfl, ?_, ?_⟩
    · show (splitNl (joinNl (((splitNl storedText.data).drop (f - 1)).take n))).map String.mk
        = (((splitNl storedText.data).map String.mk).drop (f - 1)).take n
      rw [hsl, List.map_take, List.map_drop]
    · show ((splitNl (joinNl (((splitNl storedText.data).drop (f - 1)).take n))).map
          String.mk).length = n
      rw [hsl, List.length_map, List.length_take, List.length_drop, hsplitlen]
      omega

/-- C9 witness: concrete round-trips and a concrete 2-line slice starting
at line 2 of a 4-line file. -/
theorem readFile_roundtrip_and_slice_witness :
    ((readFile "x" "viking://resource/docs/a" none none).map ReadFileResult.path
      = .ok "viking://resource/docs/a")
    ∧ ((readFile "x" "/abs/p" none none).map ReadFileResult.path
      = .ok ("viking://resource" ++ "/abs/p"))
    ∧ (∃ res, readFile "l1\nl2\nl3\nl4" "/f" (some ((2 : Nat) : Int)) (some ((2 : Nat) : Int)) = .ok res
        ∧ jsLines res.text = ((jsLines "l1\nl2\nl3\nl4").drop (2 - 1)).take 2
        ∧ (jsLines res.text).length = 2) :=
  ⟨readFile_roundtrip_and_slice.1 "x" "viking://resource/docs/a" none none rfl rfl,
   readFile_roundtrip_and_slice.2.1 "x" "/abs/p" none none rfl rfl,
   readFile_roundtrip_and_slice.2.2 "l1\nl2\nl3\nl4" "/f" 2 2 (by decide) (by decide)
     (by decide) (by decide)⟩

/-- Helper: one non-commit single-event enqueue in async mode with the
time trigger disabled — the sequence advances by one and the message
threshold decides whether a periodic commit is queued right behind it. -/
theorem enqueueEvents_message_step (cfg : BridgeConfig) (st : BridgeState) (ev : OVEvent)
    (now : Nat) (hmode : cfg.mode = .async) (hM : cfg.triggers.everyNMinutes = 0)
    (hev : ev.event_type ≠ "commit") (hNpos : 0 < cfg.triggers.everyNMessages) :
    enqueueEvents cfg st [ev] true false now =
      if (st.lastSyncedSeq + 1) % cfg.triggers.everyNMessages = 0 then
        { lastSyncedSeq := st.lastSyncedSeq + 1, lastCommitAt := now,
          queued := st.queued ++ [ev] ++ [commitEvent "periodic" (some "message-threshold")],
          syncCommits := st.syncCommits }
      else
        { lastSyncedSeq := st.lastSyncedSeq + 1, lastCommitAt := st.lastCommitAt,
          queued := st.queued ++ [ev], syncCommits := st.syncCommits } := by
  have hinner : enqueueEventsInner st [ev] true
      = ({ st with queued := st.queued ++ [ev], lastSyncedSeq := st.lastSyncedSeq + 1 },
         some (st.lastSyncedSeq + 1)) := by
    unfold enqueueEventsInner
    simp
  have hany : ([ev].any fun e => e.event_type = "commit") = false := by
    simp [hev]
  unfold enqueueEvents
  rw [hinner, hany]
  have hseq : seqTruthy (some (st.lastSyncedSeq + 1)) = true := by
    simp [seqTruthy]
  simp only [hseq, hNpos, Option.getD, Bool.false_eq_true, if_false, true_and]
  by_cases hdvd : (st.lastSyncedSeq + 1) % cfg.triggers.everyNMessages = 0
  · rw [if_pos hdvd, if_pos hdvd]
    unfold enqueueOpenVikingCommit
    rw [if_neg (by rintro ⟨h, -⟩; exact absurd h (by decide)),
      if_neg (by rintro ⟨h, -⟩; exact absurd h (by decide)), hmode]
    unfold enqueueEventsInner
    simp
  · rw [if_neg hdvd, if_neg hdvd]
    rw [hM]
    simp

/-- Helper: after `j` non-commit single-event enqueues from the fresh
state, the sequence is `j` and exactly `j / N` periodic message-threshold
commits have been queued. -/
theorem runEnqueues_invariant (cfg : BridgeConfig) (evs : Nat → OVEvent)
    (times : Nat → Nat) (N : Nat) (hmode : cfg.mode = .async)
    (hN : cfg.triggers.everyNMessages = N) (hNpos : 0 < N)
    (hM : cfg.triggers.everyNMinutes = 0)
    (hev : ∀ i, (evs i).event_type ≠ "commit") :
    ∀ j, (runEnqueues cfg evs times j).lastSyncedSeq = j
      ∧ (runEnqueues cfg evs times j).queued.filter (fun e => e.event_type = "commit")
          = List.replicate (j / N) (commitEvent "periodic" (some "message-threshold")) := by
  intro j
  induction j with
  | zero => exact ⟨rfl, by simp [runEnqueues]⟩
  | succ j ih =>
    have hstep := enqueueEvents_message_step cfg (runEnqueues cfg evs times j) (evs j)
      (times j) hmode hM (hev j) (hN ▸ hNpos)
    have hrun : runEnqueues cfg evs times (j + 1)
        = enqueueEvents cfg (runEnqueues cfg evs times j) [evs j] true false (times j) := rfl
    rw [hrun, hstep, ih.1, hN]
    by_cases hdvd : (j + 1) % N = 0
    · rw [if_pos hdvd]
      refine ⟨rfl, ?_⟩
      show ((runEnqueues cfg evs times j).queued ++ [evs j]
          ++ [commitEvent "periodic" (some "message-threshold")]).filter
          (fun e => e.event_type = "commit") = _
      rw [List.filter_append, List.filter_append, ih.2]
      have h1 : ([evs j].filter fun e => decide (e.event_type = "commit")) = [] := by
        simp [hev j]
      have h2 : ([commitEvent "periodic" (some "message-threshold")].filter
          fun e => decide (e.event_type = "commit"))
          = [commitEvent "periodic" (some "message-threshold")] := by
        simp [commitEvent]
      rw [h1, h2, List.append_nil, Nat.succ_div,
        if_pos (Nat.dvd_of_mod_eq_zero hdvd), ← List.replicate_succ']
    · rw [if_neg hdvd]
      refine ⟨rfl, ?_⟩
      show ((runEnqueues cfg evs times j).queued ++ [evs j]).filter
          (fun e => e.event_type = "commit") = _
      rw [List.filter_append, ih.2]
      have h1 : ([evs j].filter fun e => decide (e.event_type = "commit")) = [] := by
        simp [hev j]
      rw [h1, List.append_nil, Nat.succ_div,
        if_neg (fun hd => hdvd (Nat.mod_eq_zero_of_dvd hd)), Nat.add_zero]

/-- C4: with `everyNMessages = N > 0`, async commit mode, and the time
trigger disabled, after exactly `k·N` successful non-commit single-event
enqueues to the same session starting from `lastSyncedSeq = 0`, exactly
`k` commit events have been enqueued (hence at least `k` and at most
`k + 1`), each with cause `periodic` and source `message-threshold`; the
trigger's own commit enqueues do not bump the sequence, which ends at
`k·N`, and do not re-trigger. -/
theorem message_threshold_commits_exact (cfg : BridgeConfig) (evs : Nat → OVEvent)
    (times : Nat → Nat) (N k : Nat) (hmode : cfg.mode = .async)
    (hN : cfg.triggers.everyNMessages = N) (hNpos : 0 < N)
    (hM : cfg.triggers.everyNMinutes = 0)
    (hev : ∀ i, (evs i).event_type ≠ "commit") :
    ((runEnqueues cfg evs times (k * N)).queued.filter
        (fun e => e.event_type = "commit"))
      = List.replicate k (commitEvent "periodic" (some "message-threshold"))
    ∧ (runEnqueues cfg evs times (k * N)).lastSyncedSeq = k * N
    ∧ k ≤ ((runEnqueues cfg evs times (k * N)).queued.filter
        (fun e => e.event_type = "commit")).length
    ∧ ((runEnqueues cfg evs times (k * N)).queued.filter
        (fun e => e.event_type = "commit")).length ≤ k + 1 := by
  have hinv := runEnqueues_invariant cfg evs times N hmode hN hNpos hM hev (k * N)
  have hdiv : k * N / N = k := Nat.mul_div_cancel k hNpos
  rw [hdiv] at hinv
  refine ⟨hinv.2, hinv.1, ?_, ?_⟩
  · rw [hinv.2, List.length_replicate]
  · rw [hinv.2, List.length_replicate]
    omega

/-- C4 witness: six messages with `everyNMessages = 2` produce exactly
three periodic message-threshold commits and a final sequence of six. -/
theorem message_threshold_commits_exact_witness :
    ((runEnqueues { mode := .async, triggers := { everyNMessages := 2 } }
        (fun _ => { event_type := "message", content := some "m" }) (fun _ => 0)
        (3 * 2)).queued.filter (fun e => e.event_type = "commit"))
      = List.replicate 3 (commitEvent "periodic" (some "message-threshold"))
    ∧ (runEnqueues { mode := .async, triggers := { everyNMessages := 2 } }
        (fun _ => { event_type := "message", content := some "m" }) (fun _ => 0)
        (3 * 2)).lastSyncedSeq = 3 * 2
    ∧ 3 ≤ ((runEnqueues { mode := .async, triggers := { everyNMessages := 2 } }
        (fun _ => { event_type := "message", content := some "m" }) (fun _ => 0)
        (3 * 2)).queued.filter (fun e => e.event_type = "commit")).length
    ∧ ((runEnqueues { mode := .async, triggers := { everyNMessages := 2 } }
        (fun _ => { event_type := "message", content := some "m" }) (fun _ => 0)
        (3 * 2)).queued.filter (fun e => e.event_type = "commit")).length ≤ 3 + 1 :=
  message_threshold_commits_exact { mode := .async, triggers := { everyNMessages := 2 } }
    (fun _ => { event_type := "message", content := some "m" }) (fun _ => 0) 2 3
    rfl rfl (by decide) rfl (fun _ => by change ("message" : String) ≠ "commit"; decide)

/-- Helper: `trimToMaxChars` never exceeds the cap. -/
theorem trimToMaxChars_length_le (value : String) (maxChars : Nat) :
    (trimToMaxChars value maxChars).length ≤ maxChars := by
  unfold trimToMaxChars
  split
  · rename_i h
    rw [h]
    decide
  · split
    · assumption
    · split
      · show (value.data.take maxChars).length ≤ maxChars
        rw [List.length_take]
        omega
      · rw [String.length_append]
        show (value.data.take (maxChars - 3)).length + ("..." : String).length ≤ maxChars
        rw [List.length_take]
        have h3 : ("..." : String).length = 3 := rfl
        omega

/-- Helper: the total length of the snippets emitted by the Phase-H loop
never exceeds the remaining character budget. -/
theorem emitRows_sum_le (relationExpansion : Bool) (maxSnippetChars : Nat)
    (readLayer : OVReadLayer) (readO overO absO : String → Option String) :
    ∀ (sel : List SearchCandidate) (remaining : Nat),
      ((emitRows relationExpansion maxSnippetChars readLayer readO overO absO sel
          remaining).map (fun r => r.snippet.length)).sum ≤ remaining := by
  intro sel
  induction sel with
  | nil =>
    intro remaining
    exact Nat.zero_le remaining
  | cons candidate rest ih =>
    intro remaining
    simp only [emitRows]
    split
    · exact ih remaining
    · split
      · exact Nat.zero_le remaining
      · rename_i hsnip hrem
        split
        · rename_i hlt
          split
          · exact Nat.zero_le remaining
          · have hle := trimToMaxChars_length_le
              (trimToMaxChars
                (decorateSnippetForRecall
                  (resolveContextSnippet readO overO absO candidate.context readLayer
                    maxSnippetChars).1 candidate relationExpansion)
                maxSnippetChars) remaining
            have hih := ih (remaining -
              (trimToMaxChars
                (trimToMaxChars
                  (decorateSnippetForRecall
                    (resolveContextSnippet readO overO absO candidate.context readLayer
                      maxSnippetChars).1 candidate relationExpansion)
                  maxSnippetChars) remaining).length)
            simp only [List.map_cons, List.sum_cons, contextToMemoryResult]
            omega
        · rename_i hge
          split
          · exact Nat.zero_le remaining
          · have hih := ih (remaining -
              (trimToMaxChars
                (decorateSnippetForRecall
                  (resolveContextSnippet readO overO absO candidate.context readLayer
                    maxSnippetChars).1 candidate relationExpansion)
                maxSnippetChars).length)
            simp only [List.map_cons, List.sum_cons, contextToMemoryResult]
            omega

/-- Helper: the loop emits at most one row per selected candidate. -/
theorem emitRows_length_le (relationExpansion : Bool) (maxSnippetChars : Nat)
    (readLayer : OVReadLayer) (readO overO absO : String → Option String) :
    ∀ (sel : List SearchCandidate) (remaining : Nat),
      (emitRows relationExpansion maxSnippetChars readLayer readO overO absO sel
          remaining).length ≤ sel.length := by
  intro sel
  induction sel with
  | nil =>
    intro remaining
    exact Nat.zero_le 0
  | cons candidate rest ih =>
    intro remaining
    simp only [emitRows]
    split
    · exact le_trans (ih remaining) (by simp)
    · split
      · exact Nat.zero_le _
      · split
        · split
          · exact Nat.zero_le _
          · simp only [List.length_cons]
            exact Nat.succ_le_succ (ih _)
        · split
          · exact Nat.zero_le _
          · simp only [List.length_cons]
            exact Nat.succ_le_succ (ih _)

/-- C2: the sum of the snippet lengths of the rows returned by a single
`search` never exceeds the injected-character budget `maxInjectedChars`
(for any budget ≥ 1, i.e. after defaulting); each emitted snippet is
trimmed to the remaining budget and emission stops when it reaches
zero. -/
theorem search_injected_chars_budget (cfg : SearchConfig) (opts : SearchOptions)
    (query : String) (result : SearchResultOV) (findResult : Option SearchResultOV)
    (relationCandidates : List SearchCandidate)
    (readO overO absO : String → Option String)
    (hB : 1 ≤ cfg.maxInjectedChars) :
    ((searchPipeline cfg opts query result findResult relationCandidates
        readO overO absO).map (fun r => r.snippet.length)).sum
      ≤ cfg.maxInjectedChars := by
  simp only [searchPipeline]
  split
  · simp
  · exact le_trans
      (emitRows_sum_le cfg.relationExpansion cfg.maxSnippetChars cfg.readLayer
        readO overO absO _ _)
      (by omega)

/-- C2 witness: the repository's own budget scenario — two 80-character
overviews against a 50-character budget — stays within the budget. -/
theorem search_injected_chars_budget_witness :
    ((searchPipeline
        { limit := 8, readLayer := .l1, maxEntries := 2, maxSnippetChars := 80,
          maxInjectedChars := 50 }
        { maxResults := some 5 } "budget check"
        { memories :=
            [{ uri := "viking://session/budget-1", score := some (95 / 100),
               overview := some ⟨List.replicate 80 'A'⟩ },
             { uri := "viking://session/budget-2", score := some (93 / 100),
               overview := some ⟨List.replicate 80 'B'⟩ }] }
        none [] (fun _ => none) (fun _ => none) (fun _ => none)).map
      (fun r => r.snippet.length)).sum ≤ 50 :=
  search_injected_chars_budget
    { limit := 8, readLayer := .l1, maxEntries := 2, maxSnippetChars := 80,
      maxInjectedChars := 50 }
    { maxResults := some 5 } "budget check"
    { memories :=
        [{ uri := "viking://session/budget-1", score := some (95 / 100),
           overview := some ⟨List.replicate 80 'A'⟩ },
         { uri := "viking://session/budget-2", score := some (93 / 100),
           overview := some ⟨List.replicate 80 'B'⟩ }] }
    none [] (fun _ => none) (fun _ => none) (fun _ => none) (by decide)

/-- C1 counterexample: with configured `limit = 1`, `maxEntries = 6` and
`options.maxResults = 5`, the effective limit is `5` (not
`min(5, 1) = 1`) and a search over two matching memories emits 2 rows,
exceeding `min(maxEntries, configured limit, maxResults) = 1`. -/
theorem search_maxResults_not_capped_by_config_limit :
    effectiveMaxResults (some 5) 1 ≠ min 5 ((1 : Nat) : Int)
    ∧ (searchPipeline
        { limit := 1, readLayer := .l1, maxEntries := 6, maxSnippetChars := 80,
          maxInjectedChars := 3200 }
        { maxResults := some 5 } "q"
        { memories :=
            [{ uri := "a", score := some 1, overview := some "AA" },
             { uri := "b", score := some (1 / 2), overview := some "BB" }] }
        none [] (fun _ => none) (fun _ => none) (fun _ => none)).length = 2
    ∧ ¬ ((searchPipeline
        { limit := 1, readLayer := .l1, maxEntries := 6, maxSnippetChars := 80,
          maxInjectedChars := 3200 }
        { maxResults := some 5 } "q"
        { memories :=
            [{ uri := "a", score := some 1, overview := some "AA" },
             { uri := "b", score := some (1 / 2), overview := some "BB" }] }
        none [] (fun _ => none) (fun _ => none) (fun _ => none)).length
      ≤ min 6 (min 1 5)) := by
  refine ⟨by decide, ?_, ?_⟩
  · with_unfolding_all exact of_decide_eq_true rfl
  · with_unfolding_all exact of_decide_eq_true rfl

/-- Helper: the candidate sort preserves length. -/
theorem candInsertDesc_length (x : SearchCandidate) (l : List SearchCandidate) :
    (candInsertDesc x l).length = l.length + 1 := by
  induction l with
  | nil => rfl
  | cons y ys ih =>
    unfold candInsertDesc
    split
    · simp
    · simp [ih]

/-- Helper: the candidate sort preserves length. -/
theorem candSortDesc_length (l : List SearchCandidate) :
    (candSortDesc l).length = l.length := by
  induction l with
  | nil => rfl
  | cons x xs ih =>
    unfold candSortDesc
    rw [candInsertDesc_length, ih]
    simp

/-- C1 (amended): when a positive `options.maxResults = q` is supplied,
the effective search limit is `⌊q⌋` — the configured limit is **not**
applied as a cap (it is only the fallback when `maxResults` is absent or
non-positive) — and the emitted row count is at most
`max(1, min(⌊q⌋, maxEntries))`. -/
theorem search_emits_at_most_maxResults_maxEntries (cfg : SearchConfig)
    (opts : SearchOptions) (query : String) (result : SearchResultOV)
    (findResult : Option SearchResultOV) (relationCandidates : List SearchCandidate)
    (readO overO absO : String → Option String) (q : ℚ)
    (hmr : opts.maxResults = some q) (hq : 0 < q) :
    effectiveMaxResults opts.maxResults cfg.limit = ⌊q⌋
    ∧ (searchPipeline cfg opts query result findResult relationCandidates
        readO overO absO).length
      ≤ (max 1 (min ⌊q⌋ (cfg.maxEntries : Int))).toNat := by
  have heff : effectiveMaxResults opts.maxResults cfg.limit = ⌊q⌋ := by
    rw [hmr]
    simp only [effectiveMaxResults]
    rw [if_pos hq]
  refine ⟨heff, ?_⟩
  simp only [searchPipeline]
  split
  · simp
  · refine le_trans
      (emitRows_length_le cfg.relationExpansion cfg.maxSnippetChars cfg.readLayer
        readO overO absO _ _) ?_
    rw [List.length_take, heff]
    omega

/-- C1 witness: a concrete in-bounds run — `maxResults = 5`,
`maxEntries = 2` — emits at most `max(1, min(5, 2)) = 2` rows. -/
theorem search_emits_at_most_maxResults_maxEntries_witness :
    effectiveMaxResults (SearchOptions.maxResults { maxResults := some 5 }) 8 = ⌊(5 : ℚ)⌋
    ∧ (searchPipeline
        { limit := 8, readLayer := .l1, maxEntries := 2, maxSnippetChars := 80,
          maxInjectedChars := 50 }
        { maxResults := some 5 } "budget check"
        { memories :=
            [{ uri := "viking://session/budget-1", score := some (95 / 100),
               overview := some ⟨List.replicate 80 'A'⟩ },
             { uri := "viking://session/budget-2", score := some (93 / 100),
               overview := some ⟨List.replicate 80 'B'⟩ }] }
        none [] (fun _ => none) (fun _ => none) (fun _ => none)).length
      ≤ (max 1 (min ⌊(5 : ℚ)⌋ ((2 : Nat) : Int))).toNat :=
  search_emits_at_most_maxResults_maxEntries
    { limit := 8, readLayer := .l1, maxEntries := 2, maxSnippetChars := 80,
      maxInjectedChars := 50 }
    { maxResults := some 5 } "budget check"
    { memories :=
        [{ uri := "viking://session/budget-1", score := some (95 / 100),
           overview := some ⟨List.replicate 80 'A'⟩ },
         { uri := "viking://session/budget-2", score := some (93 / 100),
           overview := some ⟨List.replicate 80 'B'⟩ }] }
    none [] (fun _ => none) (fun _ => none) (fun _ => none) 5 rfl (by norm_num)

/-- Helper: effect of one signal update on one kind's score. -/
theorem sigOf_addSignal (s : PlannerSignals) (k k' : ContextKind) (w : Nat) :
    sigOf (addSignal s k w) k' = sigOf s k' + if k' = k then w else 0 := by
  cases k <;> cases k' <;> simp [addSignal, sigOf]

/-- Helper: cons equation for the plan totals. -/
theorem planKindTotal_cons (k : ContextKind) (r : PlanQuery) (rest : List PlanQuery) :
    planKindTotal k (r :: rest)
      = (if normalizeContextKind r.context_type = some k then
          normalizePriorityWeight r.priority else 0) + planKindTotal k rest := by
  unfold planKindTotal
  rw [List.filter_cons]
  split
  · rename_i h
    have h' : normalizeContextKind r.context_type = some k := by simpa using h
    rw [List.map_cons, List.sum_cons, if_pos h']
  · rename_i h
    have h' : ¬ (normalizeContextKind r.context_type = some k) := by simpa using h
    rw [if_neg h']
    omega

/-- Helper: cons equation for the result totals. -/
theorem resultKindTotal_cons (k : ContextKind) (r : QueryResultRow)
    (rest : List QueryResultRow) :
    resultKindTotal k (r :: rest)
      = (if normalizeContextKind (r.queryContextType <|> r.context_type) = some k then
          (if 0 < r.matchedContexts.getD 0 then min 5 (r.matchedContexts.getD 0) else 1)
         else 0) + resultKindTotal k rest := by
  unfold resultKindTotal
  rw [List.filter_cons]
  split
  · rename_i h
    have h' : normalizeContextKind (r.queryContextType <|> r.context_type) = some k := by
      simpa using h
    rw [List.map_cons, List.sum_cons, if_pos h']
  · rename_i h
    have h' : ¬ (normalizeContextKind (r.queryContextType <|> r.context_type) = some k) := by
      simpa using h
    rw [if_neg h']
    omega

/-- Helper: `planStep` on a non-contributing row. -/
theorem planStep_none (acc : PlannerSignals × Bool) (r : PlanQuery)
    (h : normalizeContextKind r.context_type = none) : planStep acc r = acc := by
  unfold planStep
  rw [h]

/-- Helper: `planStep` on a contributing row. -/
theorem planStep_some (acc : PlannerSignals × Bool) (r : PlanQuery) (k : ContextKind)
    (h : normalizeContextKind r.context_type = some k) :
    planStep acc r = (addSignal acc.1 k (normalizePriorityWeight r.priority), true) := by
  unfold planStep
  rw [h]

/-- Helper: `resultStep` on a non-contributing row. -/
theorem resultStep_none (acc : PlannerSignals × Bool) (r : QueryResultRow)
    (h : normalizeContextKind (r.queryContextType <|> r.context_type) = none) :
    resultStep acc r = acc := by
  unfold resultStep
  rw [h]

/-- Helper: `resultStep` on a contributing row. -/
theorem resultStep_some (acc : PlannerSignals × Bool) (r : QueryResultRow)
    (k : ContextKind)
    (h : normalizeContextKind (r.queryContextType <|> r.context_type) = some k) :
    resultStep acc r
      = (addSignal acc.1 k
          (if 0 < r.matchedContexts.getD 0 then min 5 (r.matchedContexts.getD 0) else 1),
         true) := by
  unfold resultStep
  rw [h]

/-- Helper: the plan fold computes the per-kind plan totals. -/
theorem foldl_planStep_sigOf (k : ContextKind) :
    ∀ (l : List PlanQuery) (acc : PlannerSignals × Bool),
      sigOf (l.foldl planStep acc).1 k = sigOf acc.1 k + planKindTotal k l := by
  intro l
  induction l with
  | nil =>
    intro acc
    simp [planKindTotal]
  | cons r rest ih =>
    intro acc
    rw [List.foldl_cons, planKindTotal_cons]
    cases hk : normalizeContextKind r.context_type with
    | none =>
      rw [planStep_none acc r hk, ih, if_neg (by simp)]
      omega
    | some k' =>
      rw [planStep_some acc r k' hk, ih]
      show sigOf (addSignal acc.1 k' (normalizePriorityWeight r.priority)) k + _ = _
      rw [sigOf_addSignal]
      by_cases hkk : k = k'
      · rw [if_pos hkk, if_pos (show some k' = some k by rw [hkk])]
        omega
      · rw [if_neg hkk, if_neg (show ¬ (some k' = some k) by
          intro hc
          injection hc with hc
          exact hkk hc.symm)]
        omega

/-- Helper: the plan fold flag records whether any plan row contributed. -/
theorem foldl_planStep_flag :
    ∀ (l : List PlanQuery) (acc : PlannerSignals × Bool),
      (l.foldl planStep acc).2 = (acc.2 || planContributes l) := by
  intro l
  induction l with
  | nil =>
    intro acc
    simp [planContributes]
  | cons r rest ih =>
    intro acc
    rw [List.foldl_cons]
    cases hk : normalizeContextKind r.context_type with
    | none =>
      rw [planStep_none acc r hk, ih]
      simp [planContributes, hk]
    | some k' =>
      rw [planStep_some acc r k' hk, ih]
      simp [planContributes, hk]

/-- Helper: the result fold computes the per-kind result totals. -/
theorem foldl_resultStep_sigOf (k : ContextKind) :
    ∀ (l : List QueryResultRow) (acc : PlannerSignals × Bool),
      sigOf (l.foldl resultStep acc).1 k = sigOf acc.1 k + resultKindTotal k l := by
  intro l
  induction l with
  | nil =>
    intro acc
    simp [resultKindTotal]
  | cons r rest ih =>
    intro acc
    rw [List.foldl_cons, resultKindTotal_cons]
    cases hk : normalizeContextKind (r.queryContextType <|> r.context_type) with
    | none =>
      rw [resultStep_none acc r hk, ih, if_neg (by simp)]
      omega
    | some k' =>
      rw [resultStep_some acc r k' hk, ih]
      show sigOf (addSignal acc.1 k'
        (if 0 < r.matchedContexts.getD 0 then min 5 (r.matchedContexts.getD 0) else 1)) k
          + _ = _
      rw [sigOf_addSignal]
      by_cases hkk : k = k'
      · rw [if_pos hkk, if_pos (show some k' = some k by rw [hkk])]
        omega
      · rw [if_neg hkk, if_neg (show ¬ (some k' = some k) by
          intro hc
          injection hc with hc
          exact hkk hc.symm)]
        omega

/-- Helper: the result fold flag records whether any result row contributed. -/
theorem foldl_resultStep_flag :
    ∀ (l : List QueryResultRow) (acc : PlannerSignals × Bool),
      (l.foldl resultStep acc).2 = (acc.2 || resultsContribute l) := by
  intro l
  induction l with
  | nil =>
    intro acc
    simp [resultsContribute]
  | cons r rest ih =>
    intro acc
    rw [List.foldl_cons]
    cases hk : normalizeContextKind (r.queryContextType <|> r.context_type) with
    | none =>
      rw [resultStep_none acc r hk, ih]
      simp [resultsContribute, hk]
    | some k' =>
      rw [resultStep_some acc r k' hk, ih]
      simp [resultsContribute, hk]

/-- Helper: the source field does not change a kind's score. -/
theorem sigOf_setSource (s : PlannerSignals) (src : String) (k : ContextKind) :
    sigOf { s with source := src } k = sigOf s k := by
  cases k <;> rfl

/-- Helper: the fold in `resolvePlannerSignals` computes exactly the
per-kind sums of the plan and result weights. -/
theorem resolvePlannerSignals_sigOf (pq : List PlanQuery) (qr : List QueryResultRow)
    (k : ContextKind) :
    sigOf (resolvePlannerSignals (some pq) (some qr)) k = plannerKindTotal k pq qr := by
  unfold resolvePlannerSignals
  simp only [Option.getD]
  rw [sigOf_setSource, foldl_resultStep_sigOf, foldl_planStep_sigOf]
  have h0 : sigOf (⟨"none", 0, 0, 0⟩ : PlannerSignals) k = 0 := by
    cases k <;> rfl
  rw [h0]
  unfold plannerKindTotal
  omega

/-- Helper: the source label recorded by `resolvePlannerSignals` reflects
which of the two inputs contributed. -/
theorem resolvePlannerSignals_source (pq : List PlanQuery) (qr : List QueryResultRow) :
    (resolvePlannerSignals (some pq) (some qr)).source
      = (if planContributes pq = true ∧ resultsContribute qr = true then "combined"
        else if planContributes pq = true then "query_plan"
        else if resultsContribute qr = true then "query_results"
        else "none") := by
  simp only [resolvePlannerSignals, Option.getD]
  simp only [foldl_resultStep_flag, foldl_planStep_flag]
  simp

/-- Helper: a kind total is zero when no plan row contributes. -/
theorem planKindTotal_eq_zero (pq : List PlanQuery) (h : planContributes pq = false)
    (k : ContextKind) : planKindTotal k pq = 0 := by
  unfold planKindTotal
  have hfil : pq.filter (fun r => normalizeContextKind r.context_type = some k) = [] := by
    rw [List.filter_eq_nil]
    intro r hr
    have := (List.any_eq_false.1 h) r hr
    intro hc
    rw [(by simpa using hc : normalizeContextKind r.context_type = some k)] at this
    simp at this
  rw [hfil]
  rfl

/-- Helper: a kind total is zero when no result row contributes. -/
theorem resultKindTotal_eq_zero (qr : List QueryResultRow)
    (h : resultsContribute qr = false) (k : ContextKind) : resultKindTotal k qr = 0 := by
  unfold resultKindTotal
  have hfil : qr.filter
      (fun r => normalizeContextKind (r.queryContextType <|> r.context_type) = some k)
      = [] := by
    rw [List.filter_eq_nil]
    intro r hr
    have := (List.any_eq_false.1 h) r hr
    intro hc
    rw [(by simpa using hc :
      normalizeContextKind (r.queryContextType <|> r.context_type) = some k)] at this
    simp at this
  rw [hfil]
  rfl

/-- Helper: the cons equation for `orderedInsertDesc`. -/
theorem orderedInsertDesc_cons (x y : KindScore) (ys : List KindScore) :
    orderedInsertDesc x (y :: ys)
      = if y.score ≤ x.score then x :: y :: ys else y :: orderedInsertDesc x ys := rfl

/-- Helper: insertion in front of a smaller-or-equal head. -/
theorem orderedInsertDesc_cons_le (k₁ k₂ : ContextKind) (a b : ℕ) (ys : List KindScore)
    (h : b ≤ a) :
    orderedInsertDesc ⟨k₁, a⟩ (⟨k₂, b⟩ :: ys) = ⟨k₁, a⟩ :: ⟨k₂, b⟩ :: ys := by
  rw [orderedInsertDesc_cons, if_pos h]

/-- Helper: insertion past a strictly greater head. -/
theorem orderedInsertDesc_cons_gt (k₁ k₂ : ContextKind) (a b : ℕ) (ys : List KindScore)
    (h : ¬ b ≤ a) :
    orderedInsertDesc ⟨k₁, a⟩ (⟨k₂, b⟩ :: ys) = ⟨k₂, b⟩ :: orderedInsertDesc ⟨k₁, a⟩ ys := by
  rw [orderedInsertDesc_cons, if_neg h]

/-- Helper: insertion into the empty list. -/
theorem orderedInsertDesc_nil_eq (x : KindScore) : orderedInsertDesc x [] = [x] := rfl

/-- Helper: `resolvePlannerPriority` through an explicit sorted list. -/
theorem resolvePlannerPriority_of_sorted (s : PlannerSignals) (k₁ k₂ : ContextKind)
    (a b : ℕ) (rest : List KindScore)
    (hsort : toSortedDesc
        [⟨.memory, s.memory⟩, ⟨.resource, s.resource⟩, ⟨.skill, s.skill⟩]
        = ⟨k₁, a⟩ :: ⟨k₂, b⟩ :: rest)
    (h0 : a ≠ 0) (hne : b ≠ a) :
    resolvePlannerPriority s = some k₁ := by
  unfold resolvePlannerPriority
  rw [hsort]
  show (if a = 0 then none else if b = a then none else some k₁) = some k₁
  rw [if_neg h0, if_neg hne]

/-- Helper: the top-kind characterisation of `resolvePlannerPriority`: a
kind with a positive score strictly above both others is returned. -/
theorem resolvePlannerPriority_eq_some (s : PlannerSignals) (k : ContextKind)
    (hpos : 0 < sigOf s k) (hmax : ∀ k', k' ≠ k → sigOf s k' < sigOf s k) :
    resolvePlannerPriority s = some k := by
  have hstep : toSortedDesc
      [⟨.memory, s.memory⟩, ⟨.resource, s.resource⟩, ⟨.skill, s.skill⟩]
      = orderedInsertDesc ⟨.memory, s.memory⟩
          (orderedInsertDesc ⟨.resource, s.resource⟩
            (orderedInsertDesc ⟨.skill, s.skill⟩ [])) := rfl
  cases k with
  | memory =>
    have h1 := hmax .resource (by decide)
    have h2 := hmax .skill (by decide)
    simp only [sigOf] at h1 h2 hpos
    by_cases hrs : s.skill ≤ s.resource
    · refine resolvePlannerPriority_of_sorted s .memory .resource s.memory s.resource
        [⟨.skill, s.skill⟩] ?_ (by omega) (by omega)
      rw [hstep, orderedInsertDesc_nil_eq,
        orderedInsertDesc_cons_le _ _ _ _ _ hrs,
        orderedInsertDesc_cons_le _ _ _ _ _ (le_of_lt h1)]
    · refine resolvePlannerPriority_of_sorted s .memory .skill s.memory s.skill
        [⟨.resource, s.resource⟩] ?_ (by omega) (by omega)
      rw [hstep, orderedInsertDesc_nil_eq,
        orderedInsertDesc_cons_gt _ _ _ _ _ hrs,
        orderedInsertDesc_nil_eq,
        orderedInsertDesc_cons_le _ _ _ _ _ (le_of_lt h2)]
  | resource =>
    have h1 := hmax .memory (by decide)
    have h2 := hmax .skill (by decide)
    simp only [sigOf] at h1 h2 hpos
    by_cases hms : s.skill ≤ s.memory
    · refine resolvePlannerPriority_of_sorted s .resource .memory s.resource s.memory
        [⟨.skill, s.skill⟩] ?_ (by omega) (by omega)
      rw [hstep, orderedInsertDesc_nil_eq,
        orderedInsertDesc_cons_le _ _ _ _ _ (le_of_lt h2),
        orderedInsertDesc_cons_gt _ _ _ _ _ (by omega),
        orderedInsertDesc_cons_le _ _ _ _ _ hms]
    · refine resolvePlannerPriority_of_sorted s .resource .skill s.resource s.skill
        [⟨.memory, s.memory⟩] ?_ (by omega) (by omega)
      rw [hstep, orderedInsertDesc_nil_eq,
        orderedInsertDesc_cons_le _ _ _ _ _ (le_of_lt h2),
        orderedInsertDesc_cons_gt _ _ _ _ _ (by omega),
        orderedInsertDesc_cons_gt _ _ _ _ _ (by omega),
        orderedInsertDesc_nil_eq]
  | skill =>
    have h1 := hmax .memory (by decide)
    have h2 := hmax .resource (by decide)
    simp only [sigOf] at h1 h2 hpos
    by_cases hrm : s.resource ≤ s.memory
    · refine resolvePlannerPriority_of_sorted s .skill .memory s.skill s.memory
        [⟨.resource, s.resource⟩] ?_ (by omega) (by omega)
      rw [hstep, orderedInsertDesc_nil_eq,
        orderedInsertDesc_cons_gt _ _ _ _ _ (by omega),
        orderedInsertDesc_nil_eq,
        orderedInsertDesc_cons_gt _ _ _ _ _ (by omega),
        orderedInsertDesc_cons_le _ _ _ _ _ hrm]
    · refine resolvePlannerPriority_of_sorted s .skill .resource s.skill s.resource
        [⟨.memory, s.memory⟩] ?_ (by omega) (by omega)
      rw [hstep, orderedInsertDesc_nil_eq,
        orderedInsertDesc_cons_gt _ _ _ _ _ (by omega),
        orderedInsertDesc_nil_eq,
        orderedInsertDesc_cons_gt _ _ _ _ _ (by omega),
        orderedInsertDesc_cons_gt _ _ _ _ _ (by omega),
        orderedInsertDesc_nil_eq]

/-- C8 (amended): under the auto strategy, per-kind totals are summed with
the source weight table — a plan row weighs `n = max(1, ⌊priority⌋)`
mapped `n ≤ 1 → 5, 2 → 4, 3 → 3, 4 → 2, n ≥ 5 → 1` (missing priority
→ 2) and a result row weighs `matched > 0 ? min(5, matched) : 1` — and
whenever one context type has a strictly greatest positive total it
becomes `decision.priority`, with reason `auto-planner-plan` /
`auto-planner-results` / `auto-planner-combined` according to the
contributing sources, with `-session` appended when a non-blank session
key is present. -/
theorem auto_planner_unique_dominant_priority
    (incR incS : Bool) (query : String) (sessionKey : Option String)
    (pq : List PlanQuery) (qr : List QueryResultRow) (k : ContextKind)
    (hpos : 0 < plannerKindTotal k pq qr)
    (hmax : ∀ k', k' ≠ k → plannerKindTotal k' pq qr < plannerKindTotal k pq qr) :
    (resolveSearchDecision .auto incR incS query sessionKey (some pq) (some qr)).priority
      = k
    ∧ (resolveSearchDecision .auto incR incS query sessionKey (some pq) (some qr)).reason
      = plannerReasonLabel (planContributes pq) (resultsContribute qr)
          (hasSessionKeyB sessionKey) := by
  have hprio : resolvePlannerPriority (resolvePlannerSignals (some pq) (some qr))
      = some k := by
    refine resolvePlannerPriority_eq_some _ k ?_ ?_
    · rw [resolvePlannerSignals_sigOf]
      exact hpos
    · intro k' hk
      rw [resolvePlannerSignals_sigOf, resolvePlannerSignals_sigOf]
      exact hmax k' hk
  have hcontrib : planContributes pq = true ∨ resultsContribute qr = true := by
    by_contra hc
    push_neg at hc
    have h1 := planKindTotal_eq_zero pq (by simpa using hc.1) k
    have h2 := resultKindTotal_eq_zero qr (by simpa using hc.2) k
    unfold plannerKindTotal at hpos
    omega
  constructor
  · simp only [resolveSearchDecision]
    rw [hprio]
  · simp only [resolveSearchDecision]
    rw [hprio]
    by_cases hp : planContributes pq = true
    · by_cases hr : resultsContribute qr = true
      · have hsrc : (resolvePlannerSignals (some pq) (some qr)).source = "combined" := by
          rw [resolvePlannerSignals_source, if_pos ⟨hp, hr⟩]
        cases sessionKey with
        | none =>
          simp [hsrc, plannerReasonLabel, hasSessionKeyB, hp, hr]
        | some s =>
          by_cases hjs : jsTrim s = ""
          · simp [hsrc, plannerReasonLabel, hasSessionKeyB, hp, hr, hjs]
          · simp [hsrc, plannerReasonLabel, hasSessionKeyB, hp, hr, hjs]
      · have hsrc : (resolvePlannerSignals (some pq) (some qr)).source = "query_plan" := by
          rw [resolvePlannerSignals_source, if_neg (by simp [hr]), if_pos hp]
        cases sessionKey with
        | none =>
          simp [hsrc, plannerReasonLabel, hasSessionKeyB, hp, hr]
        | some s =>
          by_cases hjs : jsTrim s = ""
          · simp [hsrc, plannerReasonLabel, hasSessionKeyB, hp, hr, hjs]
          · simp [hsrc, plannerReasonLabel, hasSessionKeyB, hp, hr, hjs]
    · have hr : resultsContribute qr = true := by
        rcases hcontrib with h | h
        · exact absurd h hp
        · exact h
      have hsrc : (resolvePlannerSignals (some pq) (some qr)).source = "query_results" := by
        rw [resolvePlannerSignals_source, if_neg (by simp [hp]), if_neg hp, if_pos hr]
      cases sessionKey with
      | none =>
        simp [hsrc, plannerReasonLabel, hasSessionKeyB, hp, hr]
      | some s =>
        by_cases hjs : jsTrim s = ""
        · simp [hsrc, plannerReasonLabel, hasSessionKeyB, hp, hr, hjs]
        · simp [hsrc, plannerReasonLabel, hasSessionKeyB, hp, hr, hjs]

/-- C8 counterexample: the claim's weight table makes a plan priority
outside 1–4 weigh 1, but the source clamps the floored priority below by
1 first, so priority 0 weighs 5.  With one `resource` plan row of
priority 0 and three `memory` result rows of one matched context each,
the claim's totals make `memory` the unique strictly-greatest kind (3
over 1), yet the decision picks `resource`. -/
theorem auto_planner_weight_table_counterexample :
    normalizePriorityWeight (some 0) = 5
    ∧ specClaimWeight (some 0) = 1
    ∧ (resolveSearchDecision .auto false false "" none
        (some [⟨some "resource", some 0, none, []⟩])
        (some [⟨some "memory", none, some 1⟩, ⟨some "memory", none, some 1⟩,
               ⟨some "memory", none, some 1⟩])).priority = .resource
    ∧ specClaimKindTotal .memory [⟨some "resource", some 0, none, []⟩]
        [⟨some "memory", none, some 1⟩, ⟨some "memory", none, some 1⟩,
         ⟨some "memory", none, some 1⟩] = 3
    ∧ specClaimKindTotal .resource [⟨some "resource", some 0, none, []⟩]
        [⟨some "memory", none, some 1⟩, ⟨some "memory", none, some 1⟩,
         ⟨some "memory", none, some 1⟩] = 1
    ∧ specClaimKindTotal .skill [⟨some "resource", some 0, none, []⟩]
        [⟨some "memory", none, some 1⟩, ⟨some "memory", none, some 1⟩,
         ⟨some "memory", none, some 1⟩] = 0
    ∧ ContextKind.resource ≠ ContextKind.memory := by
  with_unfolding_all exact of_decide_eq_true rfl

/-- C8 witness: a `skill` plan row of priority 1 (weight 5) dominates a
`resource` row of priority 5 (weight 1), so the decision priority is
`skill` with reason `auto-planner-plan`. -/
theorem auto_planner_unique_dominant_priority_witness :
    (resolveSearchDecision .auto false false "" none
        (some [⟨some "skill", some 1, none, []⟩, ⟨some "resource", some 5, none, []⟩])
        (some [])).priority = .skill
    ∧ (resolveSearchDecision .auto false false "" none
        (some [⟨some "skill", some 1, none, []⟩, ⟨some "resource", some 5, none, []⟩])
        (some [])).reason = "auto-planner-plan" := by
  have h := auto_planner_unique_dominant_priority false false "" none
      [⟨some "skill", some 1, none, []⟩, ⟨some "resource", some 5, none, []⟩] [] .skill
      (by with_unfolding_all exact of_decide_eq_true rfl)
      (by
        intro k' hk
        cases k' with
        | memory => with_unfolding_all exact of_decide_eq_true rfl
        | resource => with_unfolding_all exact of_decide_eq_true rfl
        | skill => exact absurd rfl hk)
  refine ⟨h.1, ?_⟩
  rw [h.2]
  rfl

/-- Helper: the cons equation of the flush loop. -/
theorem flushLoop_cons_eq (cfg : OutboxConfig) (outcome : Nat → Bool) (now : Nat)
    (item : OutboxItem) (rest : List OutboxItem) (sent : Nat) :
    flushLoop cfg outcome now (item :: rest) sent
      = if cfg.maxBatchSize ≤ sent then (item :: rest, [])
        else if now < item.nextAttemptAt then
          (item :: (flushLoop cfg outcome now rest sent).1,
            (flushLoop cfg outcome now rest sent).2)
        else if outcome item.id then
          ({ item with attempts := -1 } :: (flushLoop cfg outcome now rest (sent + 1)).1,
            item.id :: (flushLoop cfg outcome now rest (sent + 1)).2)
        else
          ({ item with attempts := item.attempts + 1, updatedAt := now,
                       nextAttemptAt := now + retryDelay cfg (item.attempts + 1) }
              :: (flushLoop cfg outcome now rest sent).1,
            (flushLoop cfg outcome now rest sent).2) := rfl

/-- Helper: when every item is ready and every send succeeds, one flush
pass marks and returns exactly the first `maxBatchSize − sent` items, in
file order. -/
theorem flushLoop_all_ready_success (cfg : OutboxConfig) (outcome : Nat → Bool)
    (now : Nat) :
    ∀ (items : List OutboxItem) (sent : Nat),
      (∀ it ∈ items, it.nextAttemptAt ≤ now) →
      (∀ id, outcome id = true) →
      flushLoop cfg outcome now items sent
        = ((items.take (cfg.maxBatchSize - sent)).map
              (fun i => { i with attempts := -1 })
            ++ items.drop (cfg.maxBatchSize - sent),
           (items.take (cfg.maxBatchSize - sent)).map (fun i => i.id)) := by
  intro items
  induction items with
  | nil =>
    intro sent _ _
    simp [flushLoop]
  | cons item rest ih =>
    intro sent hready hsucc
    rw [flushLoop_cons_eq]
    by_cases hb : cfg.maxBatchSize ≤ sent
    · rw [if_pos hb]
      have hn : cfg.maxBatchSize - sent = 0 := by omega
      rw [hn]
      simp
    · have hrd : item.nextAttemptAt ≤ now := hready item (List.mem_cons_self item rest)
      rw [if_neg hb, if_neg (by omega), if_pos (hsucc item.id)]
      rw [ih (sent + 1) (fun it hit => hready it (List.mem_cons_of_mem item hit)) hsucc]
      have hn : cfg.maxBatchSize - sent = (cfg.maxBatchSize - (sent + 1)) + 1 := by omega
      rw [hn, List.take_succ_cons, List.drop_succ_cons, List.map_cons, List.map_cons]
      rfl

/-- Helper: one `outboxFlush` pass over ready, never-failed items delivers
the first `maxBatchSize` items and keeps the rest. -/
theorem outboxFlush_all_ready_success (cfg : OutboxConfig) (st : OutboxState)
    (outcome : Nat → Bool) (now : Nat)
    (hready : ∀ it ∈ st.items, it.nextAttemptAt ≤ now)
    (hatt : ∀ it ∈ st.items, 0 ≤ it.attempts)
    (hsucc : ∀ id, outcome id = true) :
    outboxFlush cfg st outcome now
      = { items := st.items.drop cfg.maxBatchSize,
          delivered := st.delivered
            ++ (st.items.take cfg.maxBatchSize).map (fun i => i.id) } := by
  simp only [outboxFlush]
  rw [flushLoop_all_ready_success cfg outcome now st.items 0 hready hsucc]
  simp only [Nat.sub_zero]
  by_cases h0 : 0 < ((st.items.take cfg.maxBatchSize).map (fun i => i.id)).length
  · rw [if_pos h0, List.filter_append]
    have h1 : ((st.items.take cfg.maxBatchSize).map
        (fun i => { i with attempts := -1 })).filter (fun i => 0 ≤ i.attempts) = [] := by
      rw [List.filter_eq_nil]
      intro a ha
      rw [List.mem_map] at ha
      obtain ⟨b, hb, rfl⟩ := ha
      simp
    have h2 : (st.items.drop cfg.maxBatchSize).filter (fun i => 0 ≤ i.attempts)
        = st.items.drop cfg.maxBatchSize := by
      rw [List.filter_eq_self]
      intro a ha
      have := hatt a (List.mem_of_mem_drop ha)
      simpa using this
    rw [h1, h2]
    simp
  · rw [if_neg h0]
    have htake : st.items.take cfg.maxBatchSize = [] := by
      rw [List.length_map] at h0
      have hlen : (st.items.take cfg.maxBatchSize).length = 0 := by omega
      exact List.length_eq_zero.1 hlen
    rw [htake]
    simp

/-- Helper: the cons equation of `outboxRunFrom`. -/
theorem outboxRunFrom_cons (cfg : OutboxConfig) (st : OutboxState) (op : OutboxOp)
    (ops : List OutboxOp) :
    outboxRunFrom cfg st (op :: ops) = outboxRunFrom cfg (outboxStep cfg st op) ops := rfl

/-- Helper: the enqueue equation of `enqueuedIds`. -/
theorem enqueuedIds_cons_enq (id : Nat) (sk sid : String) (events : List OVEvent)
    (now : Nat) (ops : List OutboxOp) :
    enqueuedIds (.enq id sk sid events now :: ops)
      = if events = [] then enqueuedIds ops else id :: enqueuedIds ops := rfl

/-- Helper: the flush equation of `enqueuedIds`. -/
theorem enqueuedIds_cons_flush (outcome : Nat → Bool) (now : Nat) (ops : List OutboxOp) :
    enqueuedIds (.flush outcome now :: ops) = enqueuedIds ops := rfl

/-- Helper: along a chronological, all-successful trace starting from a
state of fresh ready items, the delivered ids followed by the still-queued
ids extend the starting ids by the trace's enqueued ids, in order. -/
theorem outboxRunFrom_order (cfg : OutboxConfig) :
    ∀ (ops : List OutboxOp) (t : Nat) (st : OutboxState),
      Chronological t ops → AllSucceed ops →
      (∀ it ∈ st.items, it.attempts = 0 ∧ it.nextAttemptAt ≤ t) →
      (outboxRunFrom cfg st ops).delivered
          ++ (outboxRunFrom cfg st ops).items.map (fun i => i.id)
        = st.delivered ++ st.items.map (fun i => i.id) ++ enqueuedIds ops := by
  intro ops
  induction ops with
  | nil =>
    intro t st _ _ _
    simp [outboxRunFrom, enqueuedIds]
  | cons op ops ih =>
    intro t st hchron hsucc hinv
    obtain ⟨hle, hchron'⟩ := hchron
    cases op with
    | enq id sk sid events now =>
      rw [outboxRunFrom_cons, enqueuedIds_cons_enq]
      have hsucc' : AllSucceed ops := hsucc
      by_cases hev : events = []
      · rw [if_pos hev]
        have hstep : outboxStep cfg st (.enq id sk sid events now) = st := by
          simp [outboxStep, outboxEnqueue, hev]
        rw [hstep]
        exact ih now st hchron' hsucc'
          (fun it hit => ⟨(hinv it hit).1, le_trans (hinv it hit).2 hle⟩)
      · rw [if_neg hev]
        have hstep : outboxStep cfg st (.enq id sk sid events now)
            = { st with items := st.items ++
                [{ id := id, createdAt := now, updatedAt := now, attempts := 0,
                   nextAttemptAt := now, sessionKey := sk, sessionId := sid,
                   events := events }] } := by
          simp [outboxStep, outboxEnqueue, hev]
        rw [hstep]
        have hinv' : ∀ it ∈ st.items ++
            [({ id := id, createdAt := now, updatedAt := now, attempts := 0,
                nextAttemptAt := now, sessionKey := sk, sessionId := sid,
                events := events } : OutboxItem)],
            it.attempts = 0 ∧ it.nextAttemptAt ≤ now := by
          intro it hit
          rcases List.mem_append.1 hit with h | h
          · exact ⟨(hinv it h).1, le_trans (hinv it h).2 hle⟩
          · rw [List.mem_singleton] at h
            subst h
            exact ⟨rfl, le_refl now⟩
        rw [ih now _ hchron' hsucc' hinv']
        simp [List.append_assoc]
    | flush outcome now =>
      rw [outboxRunFrom_cons, enqueuedIds_cons_flush]
      have hsucc2 : (∀ i, outcome i = true) ∧ AllSucceed ops := hsucc
      have hstep : outboxStep cfg st (.flush outcome now)
          = { items := st.items.drop cfg.maxBatchSize,
              delivered := st.delivered
                ++ (st.items.take cfg.maxBatchSize).map (fun i => i.id) } := by
        show outboxFlush cfg st outcome now = _
        exact outboxFlush_all_ready_success cfg st outcome now
          (fun it hit => le_trans (hinv it hit).2 hle)
          (fun it hit => le_of_eq (hinv it hit).1.symm)
          hsucc2.1
      rw [hstep]
      have hinv' : ∀ it ∈ st.items.drop cfg.maxBatchSize,
          it.attempts = 0 ∧ it.nextAttemptAt ≤ now := by
        intro it hit
        have h := hinv it (List.mem_of_mem_drop hit)
        exact ⟨h.1, le_trans h.2 hle⟩
      rw [ih now _ hchron' hsucc2.2 hinv']
      have hmap : (st.items.take cfg.maxBatchSize).map (fun i => i.id)
          ++ (st.items.drop cfg.maxBatchSize).map (fun i => i.id)
          = st.items.map (fun i => i.id) := by
        rw [← List.map_append, List.take_append_drop]
      show st.delivered ++ (st.items.take cfg.maxBatchSize).map (fun i => i.id)
          ++ (st.items.drop cfg.maxBatchSize).map (fun i => i.id) ++ enqueuedIds ops
        = st.delivered ++ st.items.map (fun i => i.id) ++ enqueuedIds ops
      rw [List.append_assoc st.delivered, hmap]

/-- C3 (amended): over any trace of enqueues and flushes with nondecreasing
times in which every attempted send succeeds, the delivered ids followed by
the ids still queued are exactly the enqueued ids in enqueue order, so
delivery order equals enqueue order.  A failed send merely delays the item,
and a delayed item can be delivered after later-enqueued items (see the
counterexample). -/
theorem outbox_delivery_order_without_failures (cfg : OutboxConfig)
    (ops : List OutboxOp) (hchron : Chronological 0 ops) (hsucc : AllSucceed ops) :
    (outboxRun cfg ops).delivered ++ (outboxRun cfg ops).items.map (fun i => i.id)
      = enqueuedIds ops := by
  have h := outboxRunFrom_order cfg ops 0 {} hchron hsucc
    (fun it hit => absurd hit (List.not_mem_nil it))
  simpa [outboxRun] using h

/-- C3 counterexample: with the default retry base of 250 ms, a first send
that fails puts item 0 into backoff; a flush at 10 ms skips it and
delivers the later-enqueued item 1, and a flush at 500 ms then delivers
item 0 — the delivery order `[1, 0]` is not a subsequence of the enqueue
order `[0, 1]`. -/
theorem outbox_delivery_reorder_after_backoff :
    (outboxRun (mkOutboxConfig 2000 5 250 1000)
        [.enq 0 "sk" "sid" [⟨"message", none, none, none, none⟩] 0,
         .flush (fun _ => false) 0,
         .enq 1 "sk" "sid" [⟨"message", none, none, none, none⟩] 10,
         .flush (fun _ => true) 10,
         .flush (fun _ => true) 500]).delivered = [1, 0]
    ∧ enqueuedIds
        [.enq 0 "sk" "sid" [⟨"message", none, none, none, none⟩] 0,
         .flush (fun _ => false) 0,
         .enq 1 "sk" "sid" [⟨"message", none, none, none, none⟩] 10,
         .flush (fun _ => true) 10,
         .flush (fun _ => true) 500] = [0, 1]
    ∧ ¬ List.Sublist ([1, 0] : List Nat) [0, 1] := by
  refine ⟨rfl, rfl, by decide⟩

/-- C3 witness: three enqueues at times 0, 1, 2 followed by one successful
flush at time 3 deliver ids 0, 1, 2 in enqueue order. -/
theorem outbox_delivery_order_without_failures_witness :
    Chronological 0
        [OutboxOp.enq 0 "sk" "sid" [⟨"message", none, none, none, none⟩] 0,
         .enq 1 "sk" "sid" [⟨"message", none, none, none, none⟩] 1,
         .enq 2 "sk" "sid" [⟨"message", none, none, none, none⟩] 2,
         .flush (fun _ => true) 3]
    ∧ AllSucceed
        [OutboxOp.enq 0 "sk" "sid" [⟨"message", none, none, none, none⟩] 0,
         .enq 1 "sk" "sid" [⟨"message", none, none, none, none⟩] 1,
         .enq 2 "sk" "sid" [⟨"message", none, none, none, none⟩] 2,
         .flush (fun _ => true) 3]
    ∧ (outboxRun (mkOutboxConfig 0 5 0 0)
        [OutboxOp.enq 0 "sk" "sid" [⟨"message", none, none, none, none⟩] 0,
         .enq 1 "sk" "sid" [⟨"message", none, none, none, none⟩] 1,
         .enq 2 "sk" "sid" [⟨"message", none, none, none, none⟩] 2,
         .flush (fun _ => true) 3]).delivered
      ++ (outboxRun (mkOutboxConfig 0 5 0 0)
        [OutboxOp.enq 0 "sk" "sid" [⟨"message", none, none, none, none⟩] 0,
         .enq 1 "sk" "sid" [⟨"message", none, none, none, none⟩] 1,
         .enq 2 "sk" "sid" [⟨"message", none, none, none, none⟩] 2,
         .flush (fun _ => true) 3]).items.map (fun i => i.id)
      = enqueuedIds
        [OutboxOp.enq 0 "sk" "sid" [⟨"message", none, none, none, none⟩] 0,
         .enq 1 "sk" "sid" [⟨"message", none, none, none, none⟩] 1,
         .enq 2 "sk" "sid" [⟨"message", none, none, none, none⟩] 2,
         .flush (fun _ => true) 3] := by
  have hc : Chronological 0
      [OutboxOp.enq 0 "sk" "sid" [⟨"message", none, none, none, none⟩] 0,
       .enq 1 "sk" "sid" [⟨"message", none, none, none, none⟩] 1,
       .enq 2 "sk" "sid" [⟨"message", none, none, none, none⟩] 2,
       .flush (fun _ => true) 3] := by
    simp [Chronological, opTime]
  have hs : AllSucceed
      [OutboxOp.enq 0 "sk" "sid" [⟨"message", none, none, none, none⟩] 0,
       .enq 1 "sk" "sid" [⟨"message", none, none, none, none⟩] 1,
       .enq 2 "sk" "sid" [⟨"message", none, none, none, none⟩] 2,
       .flush (fun _ => true) 3] := by
    simp [AllSucceed]
  exact ⟨hc, hs, outbox_delivery_order_without_failures (mkOutboxConfig 0 5 0 0) _ hc hs⟩

end OV
